import Mathlib

/-!
# Verification of the eclipse_scalper trading engine against its specification

This file embeds, in Lean 4, the parts of the `eclipse_scalper` Python code
base that the specification's claims are about:

* `brain/state.py` — canonical symbol keys (`_symkey`), `Position.validate`,
  `PsycheState.validate` and its helper merge functions;
* `brain/persistence.py` — the canonicalization performed on save/load and the
  IO-lock discipline of `save_brain` / `load_brain`;
* `data/cache.py` — the data oracle's WebSocket OHLCV ingestion
  (`update_from_ws_ohlcv`), cache-age computation (`get_cache_age`) and the
  staleness-guarded price getter (`get_price`);
* `execution/slippage_estimator.py` — order-book walking slippage estimation;
* `execution/distributed_lock.py` — file- and Redis-backed lock acquisition.

Modelling conventions (shallow embedding of Python):

* Python `float` values that may be NaN or unparsable are modelled as
  `Option ℚ`, with `none` standing for NaN / non-numeric garbage; the
  ubiquitous `_safe_float(x, default)` helper becomes `safeFloat`.
* Python `int`-ish values are `Option ℤ` (`none` = unparsable), matching
  `_safe_int`.
* Python `dict`s (which iterate in insertion order) are modelled as
  association lists `List (String × α)` with distinct keys; assignment to an
  existing key updates in place, assignment to a fresh key appends, deletion
  filters the key out — exactly CPython's ordering semantics.
* Python `set[str]` is modelled as its iteration sequence, a duplicate-free
  `List String`; `list(s)[-n:]` is the last `n` elements of that sequence.
* Wall-clock and monotonic time (`time.time()` / `time.monotonic()`) are
  explicit `ℚ` parameters.
* Python strings are modelled as `List Char` (`PyStr`), with executable
  versions of `upper`, `strip`, `replace`, `endswith` and slicing whose
  semantics mirror CPython's (replace rewrites all non-overlapping
  occurrences left to right).
-/

namespace EclipseScalper

/-! ## Safe numeric coercions (`_safe_float`, `_safe_int`)

`PyFloat` is a Python float-or-garbage value: `some q` is an ordinary finite
float (modelled exactly as a rational), `none` is NaN or a value whose
`float(...)` conversion fails.  `_safe_float` returns the default exactly in
the `none` case. -/

/-- A Python value in a float position: `none` models NaN or an unparsable
value, `some q` a finite float. -/
abbrev PyFloat := Option ℚ

/-- `_safe_float(x, default)` from `brain/state.py` / `data/cache.py`:
NaN or parse failure yields the default. -/
def safeFloat (x : PyFloat) (default : ℚ) : ℚ :=
  match x with
  | none => default
  | some v => v

/-- Python `max(a, b)` on rationals, kernel-computable. -/
def pyMax (a b : ℚ) : ℚ := if a ≥ b then a else b

/-- Python `abs(x)` on rationals, kernel-computable. -/
def pyAbs (a : ℚ) : ℚ := if a < 0 then -a else a

/-- Python `max(a, b)` on integers, kernel-computable. -/
def pyMaxI (a b : ℤ) : ℤ := if a ≥ b then a else b

/-- A Python value in an int position: `none` models a value whose `int(...)`
conversion raises. -/
abbrev PyInt := Option ℤ

/-- `_safe_int(x, default)` from `brain/state.py`: parse failure or a negative
result yields the default. -/
def safeInt (x : PyInt) (default : ℤ) : ℤ :=
  match x with
  | none => default
  | some v => if v ≥ 0 then v else default

/-! ## Python string operations on `List Char` -/

/-- A Python string, as its character sequence. -/
abbrev PyStr := List Char

/-- Coerce a Lean string literal to `PyStr`. -/
def pys (s : String) : PyStr := s.data

/-- Python `str.upper()` (ASCII fragment, all that symbols use). -/
def pyUpper (s : PyStr) : PyStr := s.map Char.toUpper

/-- Python whitespace for `str.strip()`. -/
def pyIsSpace (c : Char) : Bool :=
  c = ' ' || c = '\t' || c = '\n' || c = '\x0d' || c = '\x0b' || c = '\x0c'

/-- Python `str.strip()`: drop leading and trailing whitespace. -/
def pyStrip (s : PyStr) : PyStr :=
  ((s.dropWhile pyIsSpace).reverse.dropWhile pyIsSpace).reverse

/-- Recursion core of `pyReplace`; `fuel` bounds the number of consumed
characters so the recursion is structural (hence kernel-computable). -/
def pyReplaceAux (fuel : Nat) (s pat rep : PyStr) : PyStr :=
  match fuel, s with
  | 0, s => s
  | _ + 1, [] => []
  | fuel + 1, c :: rest =>
    if pat.isPrefixOf (c :: rest) then
      rep ++ pyReplaceAux fuel ((c :: rest).drop pat.length) pat rep
    else
      c :: pyReplaceAux fuel rest pat rep

/-- Python `str.replace(pat, rep)`: rewrite all non-overlapping occurrences
left to right (empty pattern: unchanged — never used on empty patterns). -/
def pyReplace (s pat rep : PyStr) : PyStr :=
  if pat = [] then s else pyReplaceAux s.length s pat rep

/-- Python `str.endswith(pat)`. -/
def pyEndsWith (s pat : PyStr) : Bool :=
  pat.isSuffixOf s

/-- Python slicing `s[:-n]`. -/
def pyDropRight (s : PyStr) (n : Nat) : PyStr :=
  s.take (s.length - n)

/-! ## Canonical symbol key (`_symkey`)

Identical in `brain/state.py`, `brain/persistence.py`, `data/cache.py` and
`execution/slippage_estimator.py`: uppercase + strip, rewrite the ccxt
decorations `/USDT:USDT`, `/USDT`, `:USDT`, drop residual `:` and `/`, and
strip one trailing `USDT` when the result ends in `USDTUSDT`. -/

/-- Core of `_symkey` on an actual string (after `str(sym).strip().upper()`;
the Python code strips then uppercases, which commutes). -/
def symkeyCore (s : PyStr) : PyStr :=
  let s := pyUpper (pyStrip s)
  let s := pyReplace (pyReplace s (pys "/USDT:USDT") (pys "USDT")) (pys "/USDT") (pys "USDT")
  let s := pyReplace (pyReplace s (pys ":USDT") (pys "USDT")) (pys ":") []
  let s := pyReplace s (pys "/") []
  if pyEndsWith s (pys "USDTUSDT") then pyDropRight s 4 else s

/-- `_symkey(sym)` from `brain/state.py`: `None` maps to the empty key. -/
def symkey (sym : Option PyStr) : PyStr :=
  match sym with
  | none => []
  | some s => symkeyCore s

/-! ## Python dict operations on association lists

CPython dicts iterate in insertion order; assignment to an existing key keeps
its position, assignment to a fresh key appends, `del` removes.  We model a
dict as an association list with those exact operations. -/

/-- A Python dict with string keys. -/
abbrev PyDict (α : Type) := List (PyStr × α)

/-- `d.get(k)` / `k in d`. -/
def dget {α : Type} : PyDict α → PyStr → Option α
  | [], _ => none
  | (k', v) :: rest, k => if k' = k then some v else dget rest k

/-- `d[k] = v`: update in place if present, append otherwise. -/
def dset {α : Type} (m : PyDict α) (k : PyStr) (v : α) : PyDict α :=
  match m with
  | [] => [(k, v)]
  | (k', v') :: rest => if k' = k then (k, v) :: rest else (k', v') :: dset rest k v

/-- `del d[k]`: remove the entry with key `k` (keys are unique). -/
def ddel {α : Type} : PyDict α → PyStr → PyDict α
  | [], _ => []
  | kv :: rest, k => if kv.1 = k then ddel rest k else kv :: ddel rest k

/-- Python `list(xs)[-n:]` — the last `n` elements. -/
def pyLastN {α : Type} (l : List α) (n : Nat) : List α :=
  l.drop (l.length - n)

/-! ## Collision-merge helpers of `brain/state.py` -/

/-- `_merge_max(a, b)`: compare through `_safe_float` and keep the larger
(ties keep `a`). -/
def mergeMax (a b : PyFloat) : PyFloat :=
  if safeFloat a 0 ≥ safeFloat b 0 then a else b

/-- `_merge_pick_b(a, b)`: prefer the new value unless it is `None`. -/
def mergePickB {τ : Type} (a b : Option τ) : Option τ :=
  if b.isSome then b else a

/-- `_canon_map_keys(m, merge_fn)`: canonicalize keys, drop empty keys,
merge collisions with `merge_fn` when provided (otherwise overwrite). -/
def canonMapKeys {α : Type} (m : PyDict α) (mergeFn : Option (α → α → α)) : PyDict α :=
  m.foldl
    (fun out kv =>
      let ck := symkeyCore kv.1
      if ck = [] then out
      else
        match dget out ck, mergeFn with
        | some old, some f => dset out ck (f old kv.2)
        | _, _ => dset out ck kv.2)
    []

/-! ## `Position` (`brain/state.py`)

Fields keep the Python names.  `side` and `symbol` may be `None`
(`Option PyStr`); numeric fields are `PyFloat`/`PyInt` pre-validation. -/

/-- The `Position` dataclass of `brain/state.py`. -/
structure Position where
  side : Option PyStr
  size : PyFloat
  entry_price : PyFloat
  atr : PyFloat := some 0
  leverage : PyInt := some 0
  entry_ts : PyFloat := none
  hard_stop_order_id : Option PyStr := none
  trailing_active : Bool := false
  breakeven_moved : Bool := false
  confidence : PyFloat := some 0
  last_breakeven_move : PyFloat := some 0
  symbol : Option PyStr := none
  deriving Repr, DecidableEq

/-- Python `str.lower()` (ASCII fragment). -/
def pyLower (s : PyStr) : PyStr := s.map Char.toLower

/-- `Position.validate()`:  normalize `side`, force `size` absolute, sanitize
all numerics (`now` stands for the `_now()` default of `entry_ts`), and
canonicalize `symbol` when present. -/
def Position.validate (p : Position) (now : ℚ) : Position :=
  let side := pyStrip (pyLower (p.side.getD []))
  let side := if side = pys "long" ∨ side = pys "short" then side else pys "long"
  { side := some side
    size := some (pyAbs (safeFloat p.size 0))
    entry_price := some (safeFloat p.entry_price 0)
    atr := some (safeFloat p.atr 0)
    leverage := some (safeInt p.leverage 0)
    entry_ts := some (safeFloat p.entry_ts now)
    confidence := some (safeFloat p.confidence 0)
    last_breakeven_move := some (safeFloat p.last_breakeven_move 0)
    trailing_active := p.trailing_active
    breakeven_moved := p.breakeven_moved
    hard_stop_order_id := p.hard_stop_order_id
    symbol := p.symbol.bind (fun s => let k := symkeyCore s; if k = [] then none else some k) }

/-- A value stored under a key of the `positions` dict: a `Position` object,
or anything else (skipped by `_merge_positions_canon`; dict-encoded positions
are repaired into a `Position` by its constructor path, so they are modelled
as the repaired `Position` directly). -/
inductive PosVal where
  | posv (p : Position)
  | otherP
  deriving Repr, DecidableEq

/-- `_merge_positions_canon(pos_map)`: canonicalize keys, validate values,
stamp the canonical symbol, and on collision keep the entry with the newer
`entry_ts` (ties prefer the later entry). -/
def mergePositionsCanon (m : PyDict PosVal) (now : ℚ) : PyDict Position :=
  m.foldl
    (fun out kv =>
      let k := symkeyCore kv.1
      if k = [] then out
      else
        match kv.2 with
        | .otherP => out
        | .posv p =>
          let p := { p.validate now with symbol := some k }
          match dget out k with
          | none => dset out k p
          | some q =>
            if safeFloat p.entry_ts 0 ≥ safeFloat q.entry_ts 0 then dset out k p else out)
    []

/-! ## `PsycheState` collections (`brain/state.py`)

Caps from the module header. -/

/-- `KNOWN_EXIT_IDS_CAP`. -/
def KNOWN_EXIT_IDS_CAP : Nat := 50000
/-- `ENTRY_CONF_HISTORY_CAP`. -/
def ENTRY_CONF_HISTORY_CAP : Nat := 200
/-- `TRAILING_IDS_CAP`. -/
def TRAILING_IDS_CAP : Nat := 20
/-- `ENTRY_WATCHES_CAP`. -/
def ENTRY_WATCHES_CAP : Nat := 500

/-- A `symbol_performance` value dict.  Each Python key is an `Option` field:
`none` means the key is absent (so `setdefault` fills it).  Values of
`trailing_order_ids` that are non-list iterables are modelled by their
element list, matching the `list(...)` coercion in `validate`. -/
structure PerfDict where
  pnl : Option PyFloat := none
  wins : Option PyInt := none
  losses : Option PyInt := none
  last_win : Option PyFloat := none
  pos_realized_pnl : Option PyFloat := none
  entry_size_abs : Option PyFloat := none
  mfe_pct : Option PyFloat := none
  trailing_order_ids : Option (List PyStr) := none
  last_trail_ts : Option PyFloat := none
  deriving Repr, DecidableEq

/-- A value stored in `symbol_performance`: `None`, a non-dict garbage value,
or a dict. -/
inductive PerfVal where
  | noneV
  | notDict
  | dict (d : PerfDict)
  deriving Repr, DecidableEq

/-- Shallow dict union, new (`b`) keys winning — the dict/dict case of
`_merge_dict_shallow`. -/
def perfShallowMerge (a b : PerfDict) : PerfDict where
  pnl := b.pnl <|> a.pnl
  wins := b.wins <|> a.wins
  losses := b.losses <|> a.losses
  last_win := b.last_win <|> a.last_win
  pos_realized_pnl := b.pos_realized_pnl <|> a.pos_realized_pnl
  entry_size_abs := b.entry_size_abs <|> a.entry_size_abs
  mfe_pct := b.mfe_pct <|> a.mfe_pct
  trailing_order_ids := b.trailing_order_ids <|> a.trailing_order_ids
  last_trail_ts := b.last_trail_ts <|> a.last_trail_ts

/-- `_merge_dict_shallow(a, b)` on `symbol_performance` values. -/
def mergeDictShallowPerf (a b : PerfVal) : PerfVal :=
  match a, b with
  | .dict da, .dict db => .dict (perfShallowMerge da db)
  | _, .noneV => a
  | _, _ => b

/-- An `entry_watches` value dict (schema from `execution/entry_watch.py`);
`k` is the canonical-key field stamped by the merge. -/
structure Watch where
  created_ts : Option PyFloat := none
  symbol_any : Option PyStr := none
  k : Option PyStr := none
  deriving Repr, DecidableEq

/-- A value stored in `entry_watches`: non-dicts are skipped by the merge. -/
inductive WatchVal where
  | notDict
  | dict (w : Watch)
  deriving Repr, DecidableEq

/-- `_safe_float(w2.get("created_ts", 0.0), 0.0)`. -/
def watchCt (w : Watch) : ℚ := safeFloat (w.created_ts.getD (some 0)) 0

/-- The canonicalize-and-keep-newest fold of `_merge_entry_watches_canon`
(before the size cap): canonicalize keys, skip non-dicts and empty keys,
stamp `k` and `symbol_any`, and keep the newest `created_ts` per symbol. -/
def mergeEntryWatchesRaw (m : PyDict WatchVal) : PyDict Watch :=
  m.foldl
    (fun out kv =>
      let k := symkeyCore kv.1
      match kv.2 with
      | .notDict => out
      | .dict w =>
        if k = [] then out
        else
          let w2 : Watch :=
            { w with
              k := some k
              symbol_any := some (match w.symbol_any with
                | some s => if s = [] then k else s
                | none => k) }
          match dget out k with
          | none => dset out k w2
          | some prev => if watchCt w2 ≥ watchCt prev then dset out k w2 else out)
    []

/-- `_merge_entry_watches_canon(m)`: the fold above, then a deterministic cap
at `ENTRY_WATCHES_CAP` keeping the newest by `created_ts` (Python's stable
`sorted` is modelled by the stable `insertionSort`). -/
def mergeEntryWatchesCanon (m : PyDict WatchVal) : PyDict Watch :=
  let out := mergeEntryWatchesRaw m
  if out.length > ENTRY_WATCHES_CAP then
    pyLastN (List.insertionSort (fun a b => watchCt a.2 ≤ watchCt b.2) out) ENTRY_WATCHES_CAP
  else out

/-- The `known_exit_order_ids` attribute before validation: `None`, a
list/tuple, an actual set (as its iteration sequence), or other garbage. -/
inductive KeiVal where
  | noneK
  | listK (xs : List PyStr)
  | setK (xs : List PyStr)
  | otherK
  deriving Repr, DecidableEq

/-- Deduplicate keeping first occurrences (Python `set(...)` construction in
the insertion-order model of sets). -/
def dedupFirst (xs : List PyStr) : List PyStr :=
  (xs.foldl (fun acc x => if x ∈ acc then acc else acc ++ [x]) [])

/-- The set-normalization of `known_exit_order_ids` in `validate`. -/
def keiNormalize (kv : KeiVal) : List PyStr :=
  match kv with
  | .noneK => []
  | .listK xs => dedupFirst xs
  | .setK xs => xs
  | .otherK => []

/-- The `current_day` attribute: `None`, a `date` (as its epoch-day ordinal),
a string (carrying the result of `date.fromisoformat`, `none` when parsing
fails), an int/float timestamp, or other garbage. -/
inductive DayVal where
  | noneD
  | dateD (ordinal : ℤ)
  | strD (parsed : Option ℤ)
  | numD (q : PyFloat)
  | otherD
  deriving Repr, DecidableEq

/-- `datetime.utcfromtimestamp(t).date()` as an epoch-day ordinal. -/
def dayOfTs (t : ℚ) : ℤ := ⌊t / 86400⌋

/-- The `current_day` normalization block of `PsycheState.validate`. -/
def validateDay (d : DayVal) : DayVal :=
  match d with
  | .noneD => .noneD
  | .dateD o => .dateD o
  | .strD parsed => (parsed.map DayVal.dateD).getD .noneD
  | .numD q => match q with | none => .noneD | some x => .dateD (dayOfTs x)
  | .otherD => .noneD

/-- One row of `streak_history` (untouched by `validate`). -/
abbrev StreakRow := DayVal × PyInt × PyFloat

/-! ## `PsycheState` and `validate` (`brain/state.py`) -/

/-- The `PsycheState` dataclass.  Field names and order follow the source. -/
structure PsycheState where
  schema_version : PyInt := some 3
  version : PyStr := []
  run_context : Option (PyDict PyStr) := some []
  current_equity : PyFloat := some 0
  peak_equity : PyFloat := some 0
  peak_equity_timestamp : PyFloat := some 0
  current_drawdown_pct : PyFloat := some 0
  daily_pnl : PyFloat := some 0
  start_of_day_equity : PyFloat := some 0
  current_day : DayVal := .noneD
  total_trades : PyInt := some 0
  total_wins : PyInt := some 0
  win_streak : PyInt := some 0
  positions : PyDict PosVal := []
  blacklist : PyDict PyFloat := []
  blacklist_reason : PyDict (Option PyStr) := []
  consecutive_losses : PyDict PyFloat := []
  last_exit_time : PyDict PyFloat := []
  known_exit_order_ids : KeiVal := .setK []
  symbol_performance : PyDict PerfVal := []
  entry_confidence_history : PyDict (List PyFloat) := []
  streak_history : List StreakRow := []
  adaptive_risk_multiplier : PyFloat := some 1
  funding_paid : PyFloat := some 0
  funding_rate_snapshot : PyDict PyFloat := []
  entry_watches : PyDict WatchVal := []
  session_start_timestamp : PyFloat := some 0
  uptime_seconds : PyFloat := some 0
  win_rate : PyFloat := some 0
  max_drawdown : PyFloat := some 0
  deriving Repr, DecidableEq

/-- The dict written for a non-dict `symbol_performance` value:
`{"pnl": 0.0, "wins": 0, "losses": 0, "last_win": 0.0}`. -/
def perfDefault : PerfDict where
  pnl := some (some 0)
  wins := some (some 0)
  losses := some (some 0)
  last_win := some (some 0)

/-- The `setdefault` block plus `trailing_order_ids` coercion/cap applied to
one `symbol_performance` dict (mutating `perf` in place in Python). -/
def perfHygiene (p : PerfDict) : PerfDict where
  pnl := some (p.pnl.getD (some 0))
  wins := some (p.wins.getD (some 0))
  losses := some (p.losses.getD (some 0))
  last_win := some (p.last_win.getD (some 0))
  pos_realized_pnl := some (p.pos_realized_pnl.getD (some 0))
  entry_size_abs := some (p.entry_size_abs.getD (some 0))
  mfe_pct := some (p.mfe_pct.getD (some 0))
  trailing_order_ids := some
    (let t := p.trailing_order_ids.getD []
     if t.length > TRAILING_IDS_CAP then pyLastN t TRAILING_IDS_CAP else t)
  last_trail_ts := some (p.last_trail_ts.getD (some 0))

/-- One iteration of the `symbol_performance` hygiene loop of `validate`
(iterating over a snapshot of the items while mutating the dict). -/
def perfHygieneStep (d : PyDict PerfVal) (sym : PyStr) (pv : PerfVal) : PyDict PerfVal :=
  let k := symkeyCore sym
  if k = [] then ddel d sym
  else
    match pv with
    | .dict p =>
      if k = sym then dset d k (.dict (perfHygiene p))
      else dset (ddel d sym) k (.dict (perfHygiene p))
    | _ => dset d k (.dict (perfHygiene perfDefault))

/-- One iteration of the confidence-history hygiene loop of `validate`. -/
def historyHygieneStep (d : PyDict (List PyFloat)) (sym : PyStr) (hist : List PyFloat) :
    PyDict (List PyFloat) :=
  let k := symkeyCore sym
  if k = [] then ddel d sym
  else
    let cleaned := (pyLastN hist ENTRY_CONF_HISTORY_CAP).map (fun x => (some (safeFloat x 0) : PyFloat))
    dset (if k ≠ sym then ddel d sym else d) k cleaned

/-- One iteration of the funding-snapshot hygiene loop of `validate`. -/
def fundingHygieneStep (d : PyDict PyFloat) (sym : PyStr) (v : PyFloat) : PyDict PyFloat :=
  let k := symkeyCore sym
  if k = [] then ddel d sym
  else dset (if k ≠ sym then ddel d sym else d) k (some (safeFloat v 0))

/-- `PsycheState.validate()` (`brain/state.py`, lines 369–523): canonicalize
every symbol-keyed map, normalize `known_exit_order_ids` and cap it, sanitize
all scalars, lift `peak_equity` to `current_equity`, clamp `total_wins`,
re-validate positions and run the three per-map hygiene loops.  `now` models
`_now()`. -/
def PsycheState.validate (s : PsycheState) (now : ℚ) : PsycheState :=
  let run_context := some (s.run_context.getD [])
  let positions := mergePositionsCanon s.positions now
  let blacklist := canonMapKeys s.blacklist (some mergeMax)
  let last_exit_time := canonMapKeys s.last_exit_time (some mergeMax)
  let consecutive_losses := canonMapKeys s.consecutive_losses (some mergeMax)
  let blacklist_reason := canonMapKeys s.blacklist_reason (some mergePickB)
  let symbol_performance := canonMapKeys s.symbol_performance (some mergeDictShallowPerf)
  let entry_confidence_history := canonMapKeys s.entry_confidence_history (some (fun _ b => b))
  let funding_rate_snapshot := canonMapKeys s.funding_rate_snapshot (some (fun _ b => b))
  let entry_watches := mergeEntryWatchesCanon s.entry_watches
  let kei := keiNormalize s.known_exit_order_ids
  let kei := if kei.length > KNOWN_EXIT_IDS_CAP then pyLastN kei KNOWN_EXIT_IDS_CAP else kei
  let current_equity := pyMax 0 (safeFloat s.current_equity 0)
  let peak_equity := pyMax 0 (safeFloat s.peak_equity 0)
  let start_of_day_equity := pyMax 0 (safeFloat s.start_of_day_equity 0)
  let daily_pnl := safeFloat s.daily_pnl 0
  let total_trades := pyMaxI 0 (safeInt s.total_trades 0)
  let total_wins := pyMaxI 0 (safeInt s.total_wins 0)
  let win_streak := pyMaxI 0 (safeInt s.win_streak 0)
  let peak_equity_timestamp := safeFloat s.peak_equity_timestamp now
  let current_drawdown_pct := pyMax 0 (safeFloat s.current_drawdown_pct 0)
  let max_drawdown := pyMax 0 (safeFloat s.max_drawdown 0)
  let win_rate := pyMax 0 (safeFloat s.win_rate 0)
  let funding_paid := safeFloat s.funding_paid 0
  let session_start_timestamp := safeFloat s.session_start_timestamp now
  let uptime_seconds := pyMax 0 (safeFloat s.uptime_seconds 0)
  let adaptive_risk_multiplier := pyMax 0 (safeFloat s.adaptive_risk_multiplier 1)
  let current_day := validateDay s.current_day
  let peakStep :=
    if current_equity > 0 ∧ peak_equity < current_equity then (current_equity, now)
    else (peak_equity, peak_equity_timestamp)
  let peak_equity := peakStep.1
  let peak_equity_timestamp := peakStep.2
  let total_wins := if total_wins > total_trades then total_trades else total_wins
  let positions := positions.map
    (fun kv => (kv.1, ({ Position.validate kv.2 now with symbol := some kv.1 } : Position)))
  let symbol_performance :=
    symbol_performance.foldl (fun d kv => perfHygieneStep d kv.1 kv.2) symbol_performance
  let entry_confidence_history :=
    entry_confidence_history.foldl (fun d kv => historyHygieneStep d kv.1 kv.2)
      entry_confidence_history
  let funding_rate_snapshot :=
    funding_rate_snapshot.foldl (fun d kv => fundingHygieneStep d kv.1 kv.2)
      funding_rate_snapshot
  { s with
    run_context := run_context
    positions := positions.map (fun kv => (kv.1, PosVal.posv kv.2))
    blacklist := blacklist
    blacklist_reason := blacklist_reason
    consecutive_losses := consecutive_losses
    last_exit_time := last_exit_time
    known_exit_order_ids := .setK kei
    symbol_performance := symbol_performance
    entry_confidence_history := entry_confidence_history
    funding_rate_snapshot := funding_rate_snapshot
    entry_watches := entry_watches.map (fun kv => (kv.1, WatchVal.dict kv.2))
    current_equity := some current_equity
    peak_equity := some peak_equity
    peak_equity_timestamp := some peak_equity_timestamp
    current_drawdown_pct := some current_drawdown_pct
    daily_pnl := some daily_pnl
    start_of_day_equity := some start_of_day_equity
    current_day := current_day
    total_trades := some total_trades
    total_wins := some total_wins
    win_streak := some win_streak
    adaptive_risk_multiplier := some adaptive_risk_multiplier
    funding_paid := some funding_paid
    session_start_timestamp := some session_start_timestamp
    uptime_seconds := some uptime_seconds
    win_rate := some win_rate
    max_drawdown := some max_drawdown }

/-! ## Data oracle (`data/cache.py`)

The `GodEmperorDataOracle` state, restricted to the fields read or written by
`update_from_ws_ohlcv`, `get_cache_age` and `get_price`.  Maps with a `.get`
default are modelled as total functions; `bidask` (whose absence is `None`)
as an `Option`-valued map.  Wall/monotonic clocks are passed explicitly. -/

/-- `MAX_CANDLES` (ring cap). -/
def MAX_CANDLES : Nat := 1200
/-- `PRICE_STALE_SEC_IN_POS`. -/
def PRICE_STALE_SEC_IN_POS : ℚ := 15
/-- `PRICE_STALE_SEC_IDLE`. -/
def PRICE_STALE_SEC_IDLE : ℚ := 60

/-- One stored OHLCV row `[ts_ms, o, h, l, c, v]`. -/
structure Row where
  ts : ℤ
  o : ℚ
  h : ℚ
  l : ℚ
  c : ℚ
  v : ℚ
  deriving Repr, DecidableEq

/-- The oracle's cache state (fields of `GodEmperorDataOracle.__init__` used
by the claims). -/
structure Oracle where
  ohlcv : PyStr → List Row
  ohlcv_5m : PyStr → List Row
  ohlcv_15m : PyStr → List Row
  price : PyStr → PyFloat
  bidask : PyStr → Option (PyFloat × PyFloat)
  last_poll : PyStr → ℚ
  last_poll_mono : PyStr → ℚ
  last_error : PyStr → Option PyStr
  fail_streak : PyStr → ℤ
  raw_symbol : PyStr → Option PyStr

/-- Point update of a string-keyed map. -/
def fupd {α : Type} (f : PyStr → α) (k : PyStr) (v : α) : PyStr → α :=
  fun x => if x = k then v else f x

/-- `"pat" in s` (Python substring test). -/
def pyContains (s pat : PyStr) : Bool :=
  match s with
  | [] => pat.isPrefixOf ([] : PyStr)
  | _ :: rest => pat.isPrefixOf s || pyContains rest pat

/-- `_storage_for_tf(tf)`: which ring family a timeframe uses (unknown
timeframes default to the 1m family). -/
def Oracle.storageFor (o : Oracle) (tf : PyStr) : PyStr → List Row :=
  if tf = pys "5m" then o.ohlcv_5m else if tf = pys "15m" then o.ohlcv_15m else o.ohlcv

/-- Write one ring of the family selected by `_storage_for_tf`. -/
def Oracle.storageSet (o : Oracle) (tf k : PyStr) (ring : List Row) : Oracle :=
  if tf = pys "5m" then { o with ohlcv_5m := fupd o.ohlcv_5m k ring }
  else if tf = pys "15m" then { o with ohlcv_15m := fupd o.ohlcv_15m k ring }
  else { o with ohlcv := fupd o.ohlcv k ring }

/-- `_register_symbol(sym)`: remember the canonical→raw mapping, preferring
the futures ccxt form. -/
def Oracle.registerSymbol (o : Oracle) (sym : PyStr) : Oracle :=
  let k := symkeyCore sym
  if k = [] ∨ sym = [] then o
  else
    let cur := (o.raw_symbol k).getD []
    if cur = [] then { o with raw_symbol := fupd o.raw_symbol k (some sym) }
    else if pyContains sym (pys "/USDT:USDT") ∧ ¬ pyContains cur (pys "/USDT:USDT") then
      { o with raw_symbol := fupd o.raw_symbol k (some sym) }
    else if pyContains sym (pys ":USDT") ∧ ¬ pyContains cur (pys ":USDT") then
      { o with raw_symbol := fupd o.raw_symbol k (some sym) }
    else o

/-- `_mark_success(key)`: stamp both clocks, clear the error and the fail
streak. -/
def Oracle.markSuccess (o : Oracle) (key : PyStr) (nowW nowM : ℚ) : Oracle :=
  { o with
    last_poll := fupd o.last_poll key nowW
    last_poll_mono := fupd o.last_poll_mono key nowM
    last_error := fupd o.last_error key none
    fail_streak := fupd o.fail_streak key 0 }

/-- An incoming WebSocket candle `[ts, o, h, l, c, v]`; `ts = none` models a
value on which `int(...)` raises (caught by the surrounding `except`). -/
structure WsCandle where
  ts : Option ℤ
  o : PyFloat
  h : PyFloat
  l : PyFloat
  c : PyFloat
  v : PyFloat
  deriving Repr, DecidableEq

/-- The key `f"{k}_{tf}"`. -/
def tfKey (k tf : PyStr) : PyStr := k ++ '_' :: tf

/-- The three-way ring decision of `update_from_ws_ohlcv`: `some r` means the
ring is (re)assigned to `r`, `none` means the out-of-order candle is ignored
(no assignment).  Empty ring ⇒ `[row]`; equal timestamp ⇒ replace the last
bar; greater ⇒ append and trim to `MAX_CANDLES`; smaller ⇒ ignore. -/
def ringDecision (existing : List Row) (row : Row) : Option (List Row) :=
  match existing.getLast? with
  | none => some [row]
  | some lastRow =>
    if row.ts = lastRow.ts then some (existing.dropLast ++ [row])
    else if row.ts > lastRow.ts then
      some
        (let appended := existing ++ [row]
         if appended.length > MAX_CANDLES then pyLastN appended MAX_CANDLES else appended)
    else none

/-- `update_from_ws_ohlcv(sym, tf, candle)` (`data/cache.py` 545–604):
register the symbol, coerce the candle, drop it when the close is
non-positive, then replace/append/ignore by timestamp comparison with the
last stored bar, cap the ring, and mark telemetry success.  The
`asyncio.create_task(_derive_higher_tf)` scheduled on 1m pushes is a deferred
task, not part of this synchronous transition. -/
def Oracle.update_from_ws_ohlcv (o : Oracle) (sym tf : PyStr) (candle : WsCandle)
    (nowW nowM : ℚ) : Oracle :=
  let k := symkeyCore sym
  if k = [] then o
  else
    let o := o.registerSymbol sym
    let key := tfKey k tf
    match candle.ts with
    | none => o
    | some ts =>
      let cq := safeFloat candle.c 0
      if cq ≤ 0 then o
      else
        let row : Row :=
          ⟨ts, safeFloat candle.o 0, safeFloat candle.h 0, safeFloat candle.l 0, cq,
            safeFloat candle.v 0⟩
        let existing := o.storageFor tf k
        let o :=
          match ringDecision existing row with
          | some r => o.storageSet tf k r
          | none => o
        o.markSuccess key nowW nowM

/-- `get_cache_age(sym, tf)`: monotonic-safe age; `none` models the
`float("inf")` returned when the key was never stamped. -/
def Oracle.get_cache_age (o : Oracle) (sym tf : PyStr) (nowW nowM : ℚ) : Option ℚ :=
  let k := symkeyCore sym
  let key := if tf ≠ [] then tfKey k tf else k
  let lastM := o.last_poll_mono key
  if lastM > 0 then some (pyMax 0 (nowM - lastM))
  else
    let lastW := o.last_poll key
    if lastW > 0 then some (pyMax 0 (nowW - lastW)) else none

/-- `ba[i] > 0` on a possibly-NaN float (NaN comparisons are false). -/
def pyPos (x : PyFloat) : Bool :=
  match x with
  | some q => q > 0
  | none => false

/-- `get_price(sym, in_position)` (`data/cache.py` 316–335): `0.0` when the
ticker age exceeds the staleness limit (or was never recorded); otherwise the
last price when positive, else the bid/ask mid when both are positive, else
`0.0`. -/
def Oracle.get_price (o : Oracle) (sym : PyStr) (in_position : Bool) (nowW nowM : ℚ) : ℚ :=
  let k := symkeyCore sym
  let age := o.get_cache_age k [] nowW nowM
  let stale_limit := if in_position then PRICE_STALE_SEC_IN_POS else PRICE_STALE_SEC_IDLE
  match age with
  | none => 0
  | some a =>
    if a > stale_limit then 0
    else
      let px := safeFloat (o.price k) 0
      if px > 0 then px
      else
        match o.bidask k with
        | some (b, ask) =>
          if pyPos b ∧ pyPos ask then (safeFloat b 0 + safeFloat ask 0) / 2 else 0
        | none => 0

/-! ## Slippage estimator (`execution/slippage_estimator.py`)

Order-book levels are `[price, amount]` pairs of possibly-NaN floats.  The
formatted `reason` strings are abstracted into tags (their text is built by
float formatting, which carries no logic). -/

/-- `SlippageEstimatorConfig` defaults. -/
structure SlippageEstimatorConfig where
  enabled : Bool := true
  orderbook_depth : Nat := 20
  default_slippage_pct : ℚ := 1/1000
  max_acceptable_slippage_pct : ℚ := 6/1000
  deriving Repr, DecidableEq

/-- An order book: `bids`/`asks` as `[price, amount]` level lists. -/
structure Orderbook where
  bids : List (PyFloat × PyFloat)
  asks : List (PyFloat × PyFloat)
  deriving Repr, DecidableEq

/-- `best_bid`: first bid level's price through `_safe_float` (0 when the
side is empty). -/
def bestBid (ob : Orderbook) : ℚ :=
  match ob.bids with
  | [] => 0
  | l :: _ => safeFloat l.1 0

/-- `best_ask`: first ask level's price through `_safe_float`. -/
def bestAsk (ob : Orderbook) : ℚ :=
  match ob.asks with
  | [] => 0
  | l :: _ => safeFloat l.1 0

/-- `side_lower in ("buy", "long")` after `str(side).lower().strip()`. -/
def sideIsBuy (side : PyStr) : Prop :=
  pyStrip (pyLower side) = pys "buy" ∨ pyStrip (pyLower side) = pys "long"

instance (side : PyStr) : Decidable (sideIsBuy side) := by
  unfold sideIsBuy; infer_instance

/-- The side of the book a market order consumes: buys hit asks, everything
else hits bids. -/
def chosenLevels (ob : Orderbook) (side : PyStr) : List (PyFloat × PyFloat) :=
  if sideIsBuy side then ob.asks else ob.bids

/-- The `reason` strings of `SlippageEstimate`, as tags. -/
inductive SlippageReason where
  | invalidOrderbook
  | emptyLevels
  | couldNotFill
  | insufficientLiquidity
  | slippageTooHigh
  | ok
  deriving Repr, DecidableEq

/-- The `SlippageEstimate` dataclass. -/
structure SlippageEstimate where
  symbol : PyStr
  side : PyStr
  amount_usdt : ℚ
  mid_price : ℚ
  effective_price : ℚ
  slippage_pct : ℚ
  market_impact_pct : ℚ
  available_liquidity_usdt : ℚ
  depth_levels_used : Nat
  is_acceptable : Bool
  reason : SlippageReason
  deriving Repr, DecidableEq

/-- Accumulator of the book-walking loop in `estimate_slippage`. -/
structure WalkAcc where
  remaining : ℚ
  filled : ℚ
  cost : ℚ
  used : Nat
  deriving Repr, DecidableEq

/-- One iteration of the book walk.  The Python `break` on
`remaining <= 0` is modelled by the skip branch: once `remaining ≤ 0` every
further iteration is the identity. -/
def walkStep (acc : WalkAcc) (level : PyFloat × PyFloat) : WalkAcc :=
  if acc.remaining ≤ 0 then acc
  else
    let price := safeFloat level.1 0
    let amount := safeFloat level.2 0
    if price ≤ 0 ∨ amount ≤ 0 then acc
    else
      let value := price * amount
      if value ≥ acc.remaining then
        { remaining := 0
          filled := acc.filled + acc.remaining / price
          cost := acc.cost + acc.remaining
          used := acc.used + 1 }
      else
        { remaining := acc.remaining - value
          filled := acc.filled + amount
          cost := acc.cost + value
          used := acc.used + 1 }

/-- The book walk over at most `depth` levels. -/
def walkLevels (levels : List (PyFloat × PyFloat)) (depth : Nat) (amount : ℚ) : WalkAcc :=
  (levels.take depth).foldl walkStep ⟨amount, 0, 0, 0⟩

/-- The final accept/reject decision of `estimate_slippage`: unfilled
notional ⇒ insufficient liquidity; slippage above the configured maximum ⇒
rejection; otherwise OK. -/
def acceptance (remaining slippage maxSlip : ℚ) : Bool × SlippageReason :=
  if remaining > 0 then (false, .insufficientLiquidity)
  else if slippage > maxSlip then (false, .slippageTooHigh)
  else (true, .ok)

/-- `available_liquidity`: Σ price·amount over the walked window. -/
def availableLiquidity (levels : List (PyFloat × PyFloat)) (depth : Nat) : ℚ :=
  ((levels.take depth).map (fun l => safeFloat l.1 0 * safeFloat l.2 0)).sum

/-- `SlippageEstimator.estimate_slippage(orderbook, side, amount_usdt,
symbol)` (`execution/slippage_estimator.py` 76–238). -/
def estimate_slippage (cfg : SlippageEstimatorConfig) (ob : Orderbook) (side : PyStr)
    (amount_usdt : ℚ) (symbol : PyStr) : SlippageEstimate :=
  let k := if symbol = [] then pys "UNKNOWN" else symkeyCore symbol
  let levels := chosenLevels ob side
  let side_label := if sideIsBuy side then pys "buy" else pys "sell"
  let best_bid := bestBid ob
  let best_ask := bestAsk ob
  if best_bid ≤ 0 ∨ best_ask ≤ 0 then
    { symbol := k, side := side_label, amount_usdt := amount_usdt, mid_price := 0
      effective_price := 0, slippage_pct := cfg.default_slippage_pct
      market_impact_pct := 0, available_liquidity_usdt := 0, depth_levels_used := 0
      is_acceptable := false, reason := .invalidOrderbook }
  else
    let mid_price := (best_bid + best_ask) / 2
    match levels with
    | [] =>
      { symbol := k, side := side_label, amount_usdt := amount_usdt, mid_price := mid_price
        effective_price := mid_price, slippage_pct := cfg.default_slippage_pct
        market_impact_pct := 0, available_liquidity_usdt := 0, depth_levels_used := 0
        is_acceptable := false, reason := .emptyLevels }
    | l0 :: _ =>
      let walk := walkLevels levels cfg.orderbook_depth amount_usdt
      let available_liquidity := availableLiquidity levels cfg.orderbook_depth
      if walk.filled ≤ 0 then
        { symbol := k, side := side_label, amount_usdt := amount_usdt, mid_price := mid_price
          effective_price := mid_price, slippage_pct := cfg.default_slippage_pct
          market_impact_pct := 0, available_liquidity_usdt := available_liquidity
          depth_levels_used := walk.used, is_acceptable := false, reason := .couldNotFill }
      else
        let effective_price := walk.cost / walk.filled
        let slippage_pct :=
          if side_label = pys "buy" then
            if mid_price > 0 then (effective_price - mid_price) / mid_price else 0
          else
            if mid_price > 0 then (mid_price - effective_price) / mid_price else 0
        let best_price := safeFloat l0.1 0
        let market_impact_pct :=
          if best_price > 0 then pyAbs (effective_price - best_price) / best_price else 0
        { symbol := k, side := side_label, amount_usdt := amount_usdt, mid_price := mid_price
          effective_price := effective_price, slippage_pct := slippage_pct
          market_impact_pct := market_impact_pct
          available_liquidity_usdt := available_liquidity, depth_levels_used := walk.used
          is_acceptable :=
            (acceptance walk.remaining slippage_pct cfg.max_acceptable_slippage_pct).1
          reason := (acceptance walk.remaining slippage_pct cfg.max_acceptable_slippage_pct).2 }

/-! ## Distributed lock (`execution/distributed_lock.py`)

The backend's behaviour during one acquisition attempt is a value of an
outcome type; the Python control flow over those outcomes is embedded
directly. -/

/-- What one `FileLock(...).acquire` attempt does: succeed, raise `Timeout`
(with the result of the subsequent `_is_lock_stale` check), or raise any
other exception (a filesystem/backend error). -/
inductive FileLockAttempt where
  | success
  | timeout (stale : Bool)
  | error
  deriving Repr, DecidableEq

/-- `FileLockManager.acquire_instance_lock` (`distributed_lock.py` 88–132).
`attempts` feeds the retry recursion taken after force-releasing a stale
lock; the empty-list fallback (`false`) is never reached in the theorems. -/
def fileAcquireInstanceLock (filelockAvailable alreadyHeld : Bool) :
    List FileLockAttempt → Bool
  | [] => false
  | a :: rest =>
    if ¬ filelockAvailable then true
    else if alreadyHeld then true
    else
      match a with
      | .success => true
      | .timeout true => fileAcquireInstanceLock filelockAvailable alreadyHeld rest
      | .timeout false => false
      | .error => false

/-- The outcome of one Redis command: a reply or a raised exception. -/
inductive RedisOutcome (α : Type) where
  | ok (a : α)
  | err
  deriving Repr, DecidableEq

/-- `RedisLockManager._acquire_lock` (`distributed_lock.py` 306–332): `SET NX
EX`, owner re-check with TTL refresh, and `return True  # Fail open for
safety` on any raised exception. -/
def redisAcquireLock (redisNone : Bool) (instanceId : PyStr) (held : List PyStr)
    (key : PyStr) (setNx : RedisOutcome Bool) (getOwner : RedisOutcome (Option PyStr))
    (expire : RedisOutcome Unit) : Bool × List PyStr :=
  if redisNone then (true, held)
  else
    match setNx with
    | .err => (true, held)
    | .ok true => (true, held ++ [key])
    | .ok false =>
      match getOwner with
      | .err => (true, held)
      | .ok owner =>
        if owner = some instanceId then
          match expire with
          | .err => (true, held)
          | .ok _ => (true, held ++ [key])
        else (false, held)

/-! ## Brain persistence (`brain/persistence.py`)

The byte-level envelope (msgpack + lz4 + sha256) is abstracted: a candidate
file carries flags mirroring the three checks `load_brain` performs on it
(`_unpack_envelope` checksum validity, `v in ACCEPTED_VERSIONS`, payload
root/state are dicts) and the decoded state.  The decisive ingredient for
the claims is the lock discipline: both `save_brain` and `load_brain` open
with `async with _IO_LOCK`, and `asyncio.Lock` is not reentrant, so an
acquisition attempted while the same task already holds the lock never
completes — modelled by `AsyncResult.blocked`. -/

/-- Result of awaiting an async operation in a single task: it either
completes or suspends forever (awaiting a lock the task itself holds). -/
inductive AsyncResult (α : Type) where
  | blocked
  | ok (a : α)
  deriving Repr, DecidableEq

/-- One on-disk brain file as `load_brain` sees it. -/
structure DiskFile where
  envelopeOk : Bool
  versionOk : Bool
  stateOk : Bool
  state : PsycheState
  deriving Repr, DecidableEq

/-- The brain path and its backup chain (`MAX_BACKUPS = 3`). -/
structure Disk where
  main : Option DiskFile
  bak1 : Option DiskFile
  bak2 : Option DiskFile
  bak3 : Option DiskFile
  deriving Repr, DecidableEq

/-- All three candidate checks of `load_brain` pass. -/
def DiskFile.loadable (f : DiskFile) : Bool :=
  f.envelopeOk && f.versionOk && f.stateOk

/-- `_rotate_backups` followed by `main→.bak1` and `tmp→main`
(`_atomic_write`, success path). -/
def atomicWrite (d : Disk) (f : DiskFile) : Disk :=
  { main := some f, bak1 := d.main, bak2 := d.bak1, bak3 := d.bak2 }

/-- A freshly saved envelope: written with `PERSISTENCE_VERSION`, which is in
`ACCEPTED_VERSIONS`, and a correct checksum. -/
def savedFile (st : PsycheState) : DiskFile :=
  { envelopeOk := true, versionOk := true, stateOk := true, state := st }

/-- `save_brain(state, force=True)` as awaited from a single task:
`async with _IO_LOCK` blocks forever when that task already holds the lock;
otherwise the envelope is written atomically. -/
def saveBrain (lockHeldByCaller : Bool) (d : Disk) (st : PsycheState) :
    AsyncResult Disk :=
  if lockHeldByCaller then .blocked else .ok (atomicWrite d (savedFile st))

/-- The candidate scan order of `load_brain`: `main`, then `.bak1..3`. -/
def loadCandidates (d : Disk) : List (Nat × Option DiskFile) :=
  [(0, d.main), (1, d.bak1), (2, d.bak2), (3, d.bak3)]

/-- First candidate that exists and passes all checks (corrupt/unsupported
candidates are skipped with a warning). -/
def firstLoadable : List (Nat × Option DiskFile) → Option (Nat × DiskFile)
  | [] => none
  | (i, some f) :: rest => if f.loadable then some (i, f) else firstLoadable rest
  | (_, none) :: rest => firstLoadable rest

/-- `load_brain(state)` (`brain/persistence.py` 734–816), awaited from a
single task.  It acquires `_IO_LOCK` (free at entry), optionally resurrects
the memory fallback, else scans `main`, `.bak1..3`; on success from a backup
(`i ≠ 0`) it heals forward by awaiting `save_brain(state, force=True)` —
while still holding `_IO_LOCK`.  The surrounding `try/except` cannot catch a
forever-pending await, so a blocked heal blocks the whole load.  Returns the
resulting disk, the applied state and the `True`/`False` result. -/
def loadBrain (memFallback : Option PsycheState) (d : Disk) (now : ℚ) :
    AsyncResult (Disk × Option PsycheState × Bool) :=
  match memFallback with
  | some payload => .ok (d, some (payload.validate now), true)
  | none =>
    match firstLoadable (loadCandidates d) with
    | none => .ok (d, none, false)
    | some (i, f) =>
      let st := f.state.validate now
      if i = 0 then .ok (d, some st, true)
      else
        match saveBrain true d st with
        | .blocked => .blocked
        | .ok d2 => .ok (d2, some st, true)

/-! ## Concrete states used by witnesses -/

/-- A small oracle state: a ticker stamp for `ETHUSDT` at monotonic time 100,
no last price, and a stored `(10, 12)` bid/ask. -/
def oracleC7 : Oracle where
  ohlcv := fun _ => []
  ohlcv_5m := fun _ => []
  ohlcv_15m := fun _ => []
  price := fun _ => some 0
  bidask := fun k => if k = pys "ETHUSDT" then some (some 10, some 12) else none
  last_poll := fun _ => 0
  last_poll_mono := fun k => if k = pys "ETHUSDT" then 100 else 0
  last_error := fun _ => none
  fail_streak := fun _ => 0
  raw_symbol := fun _ => none

/-! ## Cap predicates used by the collection-bound theorems -/

/-- A `symbol_performance` value whose trailing-order-id list (when the value
is a dict) is present and within `TRAILING_IDS_CAP`. -/
def PerfCapped (pv : PerfVal) : Prop :=
  ∀ pd, pv = PerfVal.dict pd →
    ∃ tids, pd.trailing_order_ids = some tids ∧ tids.length ≤ TRAILING_IDS_CAP

/-- A confidence history within `ENTRY_CONF_HISTORY_CAP` that consists of the
sanitized last entries of some raw history (newest kept). -/
def HistCapped (v : List PyFloat) : Prop :=
  v.length ≤ ENTRY_CONF_HISTORY_CAP ∧
  ∃ h0 : List PyFloat,
    v = (pyLastN h0 ENTRY_CONF_HISTORY_CAP).map (fun y => (some (safeFloat y 0) : PyFloat))

/-- A small brain state with two known exit order ids and one confidence
history entry. -/
def sC5 : PsycheState :=
  { known_exit_order_ids := .setK [pys "a", pys "b"]
    entry_confidence_history := [(pys "ETHUSDT", [some 1])] }

/-- A two-level ask book with best bid 99 and best ask 100. -/
def obC6 : Orderbook where
  bids := [(some 99, some 1)]
  asks := [(some 100, some 1), (some 101, some 1)]

/-- A small oracle state with one cached 1m bar for `BTCUSDT` at `ts = 1`. -/
def oracleC3 : Oracle where
  ohlcv := fun k => if k = pys "BTCUSDT" then [⟨1, 1, 1, 1, 1, 1⟩] else []
  ohlcv_5m := fun _ => []
  ohlcv_15m := fun _ => []
  price := fun _ => some 0
  bidask := fun _ => none
  last_poll := fun _ => 0
  last_poll_mono := fun k => if k = tfKey (pys "BTCUSDT") (pys "1m") then 50 else 0
  last_error := fun _ => none
  fail_streak := fun k => if k = tfKey (pys "BTCUSDT") (pys "1m") then 2 else 0
  raw_symbol := fun _ => none

/-! # Theorems -/

/-! ## Basic evaluations -/

example : symkeyCore (pys "BTC/USDT:USDT") = pys "BTCUSDT" := by decide
example : symkeyCore (pys "btc/usdt") = pys "BTCUSDT" := by decide
example : symkeyCore (pys "BTCUSDTUSDT") = pys "BTCUSDT" := by decide

/-! ## C1 — save/load canonicalization fixed point

The claim requires `_symkey` not to remap any key it can itself produce.
`_symkey` strips a trailing `USDT` at most once, so
`_symkey("BTCUSDTUSDTUSDT") = "BTCUSDTUSDT"` is in its image yet is remapped
again to `"BTCUSDT"`; a brain state holding such a canonicalized key is
changed by the next save/load canonicalization pass, contradicting the
docstring of `_canonicalize_payload_state` ("disk becomes permanently
canonical"). -/

/-- C1: canonicalization is not a fixed point on its own image.
`_symkey` maps `"BTCUSDTUSDTUSDT"` to `"BTCUSDTUSDT"` (a key canonicalization
itself produces) and remaps that key to `"BTCUSDT"`; consequently validating
a state whose `blacklist` holds the canonical key produced from
`"BTCUSDTUSDTUSDT"` a second time changes the map again, so a second
save/load cycle is not the identity. -/
theorem symkey_not_idempotent_on_image :
    symkeyCore (pys "BTCUSDTUSDTUSDT") = pys "BTCUSDTUSDT" ∧
    symkeyCore (pys "BTCUSDTUSDT") = pys "BTCUSDT" ∧
    (let s : PsycheState := { blacklist := [(pys "BTCUSDTUSDTUSDT", some 1)] }
     (s.validate 0).blacklist = [(pys "BTCUSDTUSDT", some 1)] ∧
     ((s.validate 0).validate 0).blacklist = [(pys "BTCUSDT", some 1)]) := by
  refine ⟨by decide, by decide, by decide, by decide⟩

/-! ## C2 — heal-forward re-save from a backup

`load_brain` enters `async with _IO_LOCK` and, after loading successfully
from `.bak1`, awaits `save_brain(state, force=True)`, which itself begins
with `async with _IO_LOCK`.  `asyncio.Lock` is not reentrant, so that nested
acquisition from the same task never completes: the heal-forward re-save
never runs and `load_brain` never returns (the `try/except` around the call
cannot catch a forever-pending await). -/

/-- C2: with `main` absent and a valid `.bak1`, `load_brain` blocks forever
on the heal-forward `save_brain` instead of re-writing `main`. -/
theorem load_brain_heal_forward_blocks :
    loadBrain none
      { main := none, bak1 := some (savedFile {}), bak2 := none, bak3 := none } 0 =
      AsyncResult.blocked := by
  rfl

/-! ## C8 — fail-open policy on backend error

Only the Redis backend fails open (`return True  # Fail open for safety`);
`FileLockManager.acquire_instance_lock` returns `False` from its generic
`except Exception` handler, i.e. the file backend fails closed on a backend
error (it returns `True` without locking only when the `filelock` library is
not installed). -/

/-- C8 counterexample: the file backend, with the lock library available, not
already holding the lock, and the backend raising a non-`Timeout` exception,
returns `False` — not the success the claim requires. -/
theorem file_lock_backend_error_returns_false :
    fileAcquireInstanceLock true false [FileLockAttempt.error] = false := by
  rfl

/-- C8 (amended): on a backend error the Redis backend's acquire returns
success (fail-open) — whether `SET NX`, the owner re-check `GET`, or the TTL
refresh raises — while the file backend's acquire returns failure on a
backend error during acquisition, failing open only when the lock library is
unavailable. -/
theorem lock_backend_error_policy :
    (∀ (iid key : PyStr) (held : List PyStr) (g : RedisOutcome (Option PyStr))
        (e : RedisOutcome Unit),
        (redisAcquireLock false iid held key .err g e).1 = true) ∧
    (∀ (iid key : PyStr) (held : List PyStr) (e : RedisOutcome Unit),
        (redisAcquireLock false iid held key (.ok false) .err e).1 = true) ∧
    (∀ (iid key : PyStr) (held : List PyStr),
        (redisAcquireLock false iid held key (.ok false) (.ok (some iid)) .err).1 = true) ∧
    (∀ (a : FileLockAttempt) (rest : List FileLockAttempt),
        fileAcquireInstanceLock true false (FileLockAttempt.error :: rest) = false ∧
        fileAcquireInstanceLock false false (a :: rest) = true) := by
  refine ⟨fun _ _ _ _ _ => rfl, fun _ _ _ _ => rfl, fun iid _ _ => ?_, fun _ _ => ⟨rfl, rfl⟩⟩
  simp [redisAcquireLock]

/-! ## Oracle helper lemmas -/

theorem registerSymbol_preserves (o : Oracle) (sym : PyStr) :
    (o.registerSymbol sym).ohlcv = o.ohlcv ∧
    (o.registerSymbol sym).ohlcv_5m = o.ohlcv_5m ∧
    (o.registerSymbol sym).ohlcv_15m = o.ohlcv_15m ∧
    (o.registerSymbol sym).last_poll = o.last_poll ∧
    (o.registerSymbol sym).last_poll_mono = o.last_poll_mono ∧
    (o.registerSymbol sym).last_error = o.last_error ∧
    (o.registerSymbol sym).fail_streak = o.fail_streak ∧
    (o.registerSymbol sym).price = o.price ∧
    (o.registerSymbol sym).bidask = o.bidask := by
  simp only [Oracle.registerSymbol]
  split_ifs <;> simp

theorem registerSymbol_storageFor (o : Oracle) (sym tf : PyStr) :
    (o.registerSymbol sym).storageFor tf = o.storageFor tf := by
  obtain ⟨h1, h5, h15, -⟩ := registerSymbol_preserves o sym
  unfold Oracle.storageFor
  rw [h1, h5, h15]

theorem markSuccess_storageFor (o : Oracle) (key : PyStr) (nowW nowM : ℚ) (tf : PyStr) :
    (o.markSuccess key nowW nowM).storageFor tf = o.storageFor tf := rfl

theorem storageSet_read (o : Oracle) (tf k : PyStr) (r : List Row) :
    ((o.storageSet tf k r).storageFor tf) k = r := by
  unfold Oracle.storageSet Oracle.storageFor
  split_ifs <;> simp [fupd]

theorem pyLastN_of_le {α : Type} (l : List α) (n : Nat) (h : l.length ≤ n) :
    pyLastN l n = l := by
  simp [pyLastN, Nat.sub_eq_zero_of_le h]

theorem pyLastN_length_le {α : Type} (l : List α) (n : Nat) :
    (pyLastN l n).length ≤ n := by
  simp only [pyLastN, List.length_drop]
  omega

/-! ## C3 — WS OHLCV replace / append / ignore -/

/-- C3: for a cached ring with last stored bar `lastRow` and an incoming
candle with a parsable timestamp and positive close, `update_from_ws_ohlcv`
replaces only the last bar on an equal timestamp, appends and trims the ring
to at most `MAX_CANDLES = 1200` bars on a greater timestamp, and leaves the
ring unchanged on a smaller (out-of-order) timestamp. -/
theorem ws_ohlcv_replace_append_ignore (o : Oracle) (sym tf : PyStr) (candle : WsCandle)
    (nowW nowM : ℚ) (ts : ℤ) (lastRow : Row)
    (hk : symkeyCore sym ≠ [])
    (hts : candle.ts = some ts)
    (hc : safeFloat candle.c 0 > 0)
    (hlast : ((o.storageFor tf) (symkeyCore sym)).getLast? = some lastRow) :
    (ts = lastRow.ts →
      ((o.update_from_ws_ohlcv sym tf candle nowW nowM).storageFor tf) (symkeyCore sym) =
        ((o.storageFor tf) (symkeyCore sym)).dropLast ++
          [⟨ts, safeFloat candle.o 0, safeFloat candle.h 0, safeFloat candle.l 0,
            safeFloat candle.c 0, safeFloat candle.v 0⟩]) ∧
    (ts > lastRow.ts →
      ((o.update_from_ws_ohlcv sym tf candle nowW nowM).storageFor tf) (symkeyCore sym) =
        pyLastN ((o.storageFor tf) (symkeyCore sym) ++
          [⟨ts, safeFloat candle.o 0, safeFloat candle.h 0, safeFloat candle.l 0,
            safeFloat candle.c 0, safeFloat candle.v 0⟩]) MAX_CANDLES ∧
      (((o.update_from_ws_ohlcv sym tf candle nowW nowM).storageFor tf) (symkeyCore sym)).length ≤
        MAX_CANDLES) ∧
    (ts < lastRow.ts →
      ((o.update_from_ws_ohlcv sym tf candle nowW nowM).storageFor tf) (symkeyCore sym) =
        (o.storageFor tf) (symkeyCore sym)) := by
  have hreg := registerSymbol_storageFor o sym tf
  have hred : o.update_from_ws_ohlcv sym tf candle nowW nowM =
      (match ringDecision ((o.registerSymbol sym).storageFor tf (symkeyCore sym))
          ⟨ts, safeFloat candle.o 0, safeFloat candle.h 0, safeFloat candle.l 0,
            safeFloat candle.c 0, safeFloat candle.v 0⟩ with
        | some r => (o.registerSymbol sym).storageSet tf (symkeyCore sym) r
        | none => o.registerSymbol sym).markSuccess (tfKey (symkeyCore sym) tf) nowW nowM := by
    simp only [Oracle.update_from_ws_ohlcv, hts, if_neg hk, if_neg (not_le.mpr hc)]
  have hlast2 : ((o.registerSymbol sym).storageFor tf (symkeyCore sym)).getLast? =
      some lastRow := by rw [hreg]; exact hlast
  refine ⟨fun heq => ?_, fun hgt => ?_, fun hlt => ?_⟩
  · have hdec : ringDecision ((o.registerSymbol sym).storageFor tf (symkeyCore sym))
        ⟨ts, safeFloat candle.o 0, safeFloat candle.h 0, safeFloat candle.l 0,
          safeFloat candle.c 0, safeFloat candle.v 0⟩ =
        some (((o.registerSymbol sym).storageFor tf (symkeyCore sym)).dropLast ++
          [⟨ts, safeFloat candle.o 0, safeFloat candle.h 0, safeFloat candle.l 0,
            safeFloat candle.c 0, safeFloat candle.v 0⟩]) := by
      simp only [ringDecision, hlast2, heq, if_pos]
    rw [hred, hdec, markSuccess_storageFor, storageSet_read, hreg]
  · have hdec : ringDecision ((o.registerSymbol sym).storageFor tf (symkeyCore sym))
        ⟨ts, safeFloat candle.o 0, safeFloat candle.h 0, safeFloat candle.l 0,
          safeFloat candle.c 0, safeFloat candle.v 0⟩ =
        some (let appended := (o.registerSymbol sym).storageFor tf (symkeyCore sym) ++
            [⟨ts, safeFloat candle.o 0, safeFloat candle.h 0, safeFloat candle.l 0,
              safeFloat candle.c 0, safeFloat candle.v 0⟩]
          if appended.length > MAX_CANDLES then pyLastN appended MAX_CANDLES else appended) := by
      simp only [ringDecision, hlast2, if_neg (ne_of_gt hgt), if_pos hgt]
    have hres : ((o.update_from_ws_ohlcv sym tf candle nowW nowM).storageFor tf)
        (symkeyCore sym) =
        pyLastN ((o.storageFor tf) (symkeyCore sym) ++
          [⟨ts, safeFloat candle.o 0, safeFloat candle.h 0, safeFloat candle.l 0,
            safeFloat candle.c 0, safeFloat candle.v 0⟩]) MAX_CANDLES := by
      rw [hred, hdec, markSuccess_storageFor, storageSet_read, hreg]
      set appended := (o.storageFor tf) (symkeyCore sym) ++
        [(⟨ts, safeFloat candle.o 0, safeFloat candle.h 0, safeFloat candle.l 0,
          safeFloat candle.c 0, safeFloat candle.v 0⟩ : Row)] with happ
      by_cases hlen : appended.length > MAX_CANDLES
      · simp [hlen]
      · simp only [if_neg hlen]
        exact (pyLastN_of_le appended MAX_CANDLES (not_lt.mp hlen)).symm
    refine ⟨hres, ?_⟩
    rw [hres]
    exact pyLastN_length_le _ _
  · have hdec : ringDecision ((o.registerSymbol sym).storageFor tf (symkeyCore sym))
        ⟨ts, safeFloat candle.o 0, safeFloat candle.h 0, safeFloat candle.l 0,
          safeFloat candle.c 0, safeFloat candle.v 0⟩ = none := by
      simp only [ringDecision, hlast2, if_neg (ne_of_lt hlt), if_neg (not_lt.mpr (le_of_lt hlt))]
    rw [hred, hdec, markSuccess_storageFor, hreg]

/-- C3 witness: pushing a candle with `ts = 2` onto `oracleC3`'s one-bar 1m
ring (`ts = 1`) appends it. -/
theorem ws_ohlcv_replace_append_ignore_witness :
    ((oracleC3.update_from_ws_ohlcv (pys "BTCUSDT") (pys "1m")
        ⟨some 2, some 1, some 1, some 1, some 1, some 1⟩ 60 60).storageFor (pys "1m"))
      (symkeyCore (pys "BTCUSDT")) =
      [⟨1, 1, 1, 1, 1, 1⟩, ⟨2, 1, 1, 1, 1, 1⟩] := by
  have h := (ws_ohlcv_replace_append_ignore oracleC3 (pys "BTCUSDT") (pys "1m")
      ⟨some 2, some 1, some 1, some 1, some 1, some 1⟩ 60 60 2 ⟨1, 1, 1, 1, 1, 1⟩
      (by decide) rfl (by decide) (by decide)).2.1 (by decide)
  rw [h.1]
  decide

/-! ## C9 — invalid WS candle mutates nothing

When the incoming close coerces (via `_safe_float`) to a value ≤ 0 — so
including NaN and unparsable values — `update_from_ws_ohlcv` returns before
any ring assignment and before `_mark_success`, so every OHLCV ring and all
last-poll / staleness telemetry are unchanged (only the canonical→raw
`raw_symbol` bookkeeping, written by `_register_symbol` before the guard, can
differ). -/

/-- C9: a WS candle whose close coerces to ≤ 0 leaves all OHLCV rings and
the last-poll/staleness telemetry (wall and monotonic stamps, last error,
fail streak) unchanged. -/
theorem ws_ohlcv_invalid_close_frame (o : Oracle) (sym tf : PyStr) (candle : WsCandle)
    (nowW nowM : ℚ) (hc : safeFloat candle.c 0 ≤ 0) :
    (o.update_from_ws_ohlcv sym tf candle nowW nowM).ohlcv = o.ohlcv ∧
    (o.update_from_ws_ohlcv sym tf candle nowW nowM).ohlcv_5m = o.ohlcv_5m ∧
    (o.update_from_ws_ohlcv sym tf candle nowW nowM).ohlcv_15m = o.ohlcv_15m ∧
    (o.update_from_ws_ohlcv sym tf candle nowW nowM).last_poll = o.last_poll ∧
    (o.update_from_ws_ohlcv sym tf candle nowW nowM).last_poll_mono = o.last_poll_mono ∧
    (o.update_from_ws_ohlcv sym tf candle nowW nowM).last_error = o.last_error ∧
    (o.update_from_ws_ohlcv sym tf candle nowW nowM).fail_streak = o.fail_streak := by
  obtain ⟨r1, r2, r3, r4, r5, r6, r7, -⟩ := registerSymbol_preserves o sym
  by_cases hk : symkeyCore sym = []
  · simp [Oracle.update_from_ws_ohlcv, hk]
  · cases hts : candle.ts with
    | none =>
      simp only [Oracle.update_from_ws_ohlcv, if_neg hk, hts]
      exact ⟨r1, r2, r3, r4, r5, r6, r7⟩
    | some ts =>
      simp only [Oracle.update_from_ws_ohlcv, if_neg hk, hts, if_pos hc]
      exact ⟨r1, r2, r3, r4, r5, r6, r7⟩

/-- C9 witness: a candle with close `0` (as `_safe_float` also yields for NaN)
at a fresh timestamp leaves `oracleC3`'s rings and telemetry untouched. -/
theorem ws_ohlcv_invalid_close_frame_witness :
    (oracleC3.update_from_ws_ohlcv (pys "BTCUSDT") (pys "1m")
        ⟨some 2, some 1, some 1, some 1, some 0, some 1⟩ 60 60).ohlcv = oracleC3.ohlcv ∧
    (oracleC3.update_from_ws_ohlcv (pys "BTCUSDT") (pys "1m")
        ⟨some 2, some 1, some 1, some 1, some 0, some 1⟩ 60 60).ohlcv_5m = oracleC3.ohlcv_5m ∧
    (oracleC3.update_from_ws_ohlcv (pys "BTCUSDT") (pys "1m")
        ⟨some 2, some 1, some 1, some 1, some 0, some 1⟩ 60 60).ohlcv_15m = oracleC3.ohlcv_15m ∧
    (oracleC3.update_from_ws_ohlcv (pys "BTCUSDT") (pys "1m")
        ⟨some 2, some 1, some 1, some 1, some 0, some 1⟩ 60 60).last_poll = oracleC3.last_poll ∧
    (oracleC3.update_from_ws_ohlcv (pys "BTCUSDT") (pys "1m")
        ⟨some 2, some 1, some 1, some 1, some 0, some 1⟩ 60 60).last_poll_mono =
      oracleC3.last_poll_mono ∧
    (oracleC3.update_from_ws_ohlcv (pys "BTCUSDT") (pys "1m")
        ⟨some 2, some 1, some 1, some 1, some 0, some 1⟩ 60 60).last_error = oracleC3.last_error ∧
    (oracleC3.update_from_ws_ohlcv (pys "BTCUSDT") (pys "1m")
        ⟨some 2, some 1, some 1, some 1, some 0, some 1⟩ 60 60).fail_streak =
      oracleC3.fail_streak :=
  ws_ohlcv_invalid_close_frame oracleC3 (pys "BTCUSDT") (pys "1m")
    ⟨some 2, some 1, some 1, some 1, some 0, some 1⟩ 60 60 (by decide)

/-! ## Walk lemmas for the slippage estimator -/

theorem walkStep_used_le (acc : WalkAcc) (lv : PyFloat × PyFloat) :
    (walkStep acc lv).used ≤ acc.used + 1 := by
  simp only [walkStep]; split_ifs <;> simp

theorem walk_foldl_used (l : List (PyFloat × PyFloat)) (acc : WalkAcc) :
    (l.foldl walkStep acc).used ≤ acc.used + l.length := by
  induction l generalizing acc with
  | nil => simp
  | cons lv rest ih =>
    have h1 := ih (walkStep acc lv)
    have h2 := walkStep_used_le acc lv
    simp only [List.foldl_cons, List.length_cons]
    omega

theorem walkStep_filled_mono (acc : WalkAcc) (lv : PyFloat × PyFloat) :
    acc.filled ≤ (walkStep acc lv).filled := by
  simp only [walkStep]
  split_ifs with h1 h2 h3
  · exact le_refl _
  · exact le_refl _
  · have hrem : 0 < acc.remaining := lt_of_not_le h1
    have hpr : 0 < safeFloat lv.1 0 := by
      rcases not_or.mp h2 with ⟨hp, -⟩
      exact lt_of_not_le hp
    simp only
    nlinarith [div_pos hrem hpr]
  · have ham : 0 < safeFloat lv.2 0 := by
      rcases not_or.mp h2 with ⟨-, ha⟩
      exact lt_of_not_le ha
    simp only
    linarith

theorem walk_foldl_filled_mono (l : List (PyFloat × PyFloat)) (acc : WalkAcc) :
    acc.filled ≤ (l.foldl walkStep acc).filled := by
  induction l generalizing acc with
  | nil => exact le_refl _
  | cons lv rest ih => exact le_trans (walkStep_filled_mono acc lv) (ih (walkStep acc lv))

theorem walkStep_eq_or_filled_lt (acc : WalkAcc) (lv : PyFloat × PyFloat) :
    walkStep acc lv = acc ∨ acc.filled < (walkStep acc lv).filled := by
  simp only [walkStep]
  split_ifs with h1 h2 h3
  · exact Or.inl rfl
  · exact Or.inl rfl
  · refine Or.inr ?_
    have hrem : 0 < acc.remaining := lt_of_not_le h1
    have hpr : 0 < safeFloat lv.1 0 := lt_of_not_le (not_or.mp h2).1
    simp only
    nlinarith [div_pos hrem hpr]
  · refine Or.inr ?_
    have ham : 0 < safeFloat lv.2 0 := lt_of_not_le (not_or.mp h2).2
    simp only
    linarith

theorem walk_foldl_eq_of_filled_eq (l : List (PyFloat × PyFloat)) (acc : WalkAcc)
    (h : (l.foldl walkStep acc).filled = acc.filled) : l.foldl walkStep acc = acc := by
  induction l generalizing acc with
  | nil => rfl
  | cons lv rest ih =>
    simp only [List.foldl_cons] at h ⊢
    have hmono1 := walkStep_filled_mono acc lv
    have hmono2 := walk_foldl_filled_mono rest (walkStep acc lv)
    have hstep : walkStep acc lv = acc := by
      rcases walkStep_eq_or_filled_lt acc lv with he | hlt
      · exact he
      · exact absurd h (ne_of_gt (lt_of_lt_of_le hlt hmono2))
    rw [hstep] at h ⊢
    exact ih acc h

theorem walkStep_remaining_nonneg (acc : WalkAcc) (lv : PyFloat × PyFloat)
    (h : 0 ≤ acc.remaining) : 0 ≤ (walkStep acc lv).remaining := by
  simp only [walkStep]
  split_ifs with h1 h2 h3
  · exact h
  · exact h
  · exact le_refl 0
  · have : safeFloat lv.1 0 * safeFloat lv.2 0 < acc.remaining := lt_of_not_le h3
    simp only
    linarith

theorem walk_foldl_remaining_nonneg (l : List (PyFloat × PyFloat)) (acc : WalkAcc)
    (h : 0 ≤ acc.remaining) : 0 ≤ (l.foldl walkStep acc).remaining := by
  induction l generalizing acc with
  | nil => exact h
  | cons lv rest ih => exact ih (walkStep acc lv) (walkStep_remaining_nonneg acc lv h)

theorem walk_foldl_cost_ge (p0 : ℚ) (hp0 : 0 < p0) (l : List (PyFloat × PyFloat))
    (hl : ∀ lv ∈ l, safeFloat lv.1 0 ≤ 0 ∨ p0 ≤ safeFloat lv.1 0) (acc : WalkAcc)
    (hacc : p0 * acc.filled ≤ acc.cost) :
    p0 * (l.foldl walkStep acc).filled ≤ (l.foldl walkStep acc).cost := by
  induction l generalizing acc with
  | nil => exact hacc
  | cons lv rest ih =>
    refine ih (fun x hx => hl x (List.mem_cons_of_mem lv hx)) (walkStep acc lv) ?_
    simp only [walkStep]
    split_ifs with h1 h2 h3
    · exact hacc
    · exact hacc
    · have hrem : 0 < acc.remaining := lt_of_not_le h1
      have hpr : 0 < safeFloat lv.1 0 := lt_of_not_le (not_or.mp h2).1
      have hp0le : p0 ≤ safeFloat lv.1 0 := by
        rcases hl lv (List.mem_cons_self lv rest) with hc | hc
        · exact absurd hc (not_le.mpr hpr)
        · exact hc
      have key : p0 * (acc.remaining / safeFloat lv.1 0) ≤ acc.remaining := by
        have h4 : safeFloat lv.1 0 * (acc.remaining / safeFloat lv.1 0) = acc.remaining :=
          mul_div_cancel₀ _ (ne_of_gt hpr)
        nlinarith [div_nonneg (le_of_lt hrem) (le_of_lt hpr)]
      simp only
      nlinarith
    · have ham : 0 < safeFloat lv.2 0 := lt_of_not_le (not_or.mp h2).2
      have hpr0 : safeFloat lv.1 0 ≤ 0 ∨ p0 ≤ safeFloat lv.1 0 :=
        hl lv (List.mem_cons_self lv rest)
      have hprpos : 0 < safeFloat lv.1 0 := lt_of_not_le (not_or.mp h2).1
      have hp0le : p0 ≤ safeFloat lv.1 0 := by
        rcases hpr0 with hc | hc
        · exact absurd hc (not_le.mpr hprpos)
        · exact hc
      simp only
      nlinarith

theorem walk_foldl_cost_le (p1 : ℚ) (l : List (PyFloat × PyFloat))
    (hl : ∀ lv ∈ l, safeFloat lv.1 0 ≤ 0 ∨ safeFloat lv.1 0 ≤ p1) (acc : WalkAcc)
    (hacc : acc.cost ≤ p1 * acc.filled) :
    (l.foldl walkStep acc).cost ≤ p1 * (l.foldl walkStep acc).filled := by
  induction l generalizing acc with
  | nil => exact hacc
  | cons lv rest ih =>
    refine ih (fun x hx => hl x (List.mem_cons_of_mem lv hx)) (walkStep acc lv) ?_
    simp only [walkStep]
    split_ifs with h1 h2 h3
    · exact hacc
    · exact hacc
    · have hrem : 0 < acc.remaining := lt_of_not_le h1
      have hpr : 0 < safeFloat lv.1 0 := lt_of_not_le (not_or.mp h2).1
      have hp1ge : safeFloat lv.1 0 ≤ p1 := by
        rcases hl lv (List.mem_cons_self lv rest) with hc | hc
        · exact absurd hc (not_le.mpr hpr)
        · exact hc
      have key : acc.remaining ≤ p1 * (acc.remaining / safeFloat lv.1 0) := by
        have h4 : safeFloat lv.1 0 * (acc.remaining / safeFloat lv.1 0) = acc.remaining :=
          mul_div_cancel₀ _ (ne_of_gt hpr)
        nlinarith [div_nonneg (le_of_lt hrem) (le_of_lt hpr)]
      simp only
      nlinarith
    · have ham : 0 < safeFloat lv.2 0 := lt_of_not_le (not_or.mp h2).2
      have hprpos : 0 < safeFloat lv.1 0 := lt_of_not_le (not_or.mp h2).1
      have hp1ge : safeFloat lv.1 0 ≤ p1 := by
        rcases hl lv (List.mem_cons_self lv rest) with hc | hc
        · exact absurd hc (not_le.mpr hprpos)
        · exact hc
      simp only
      nlinarith

theorem walk_used_le_depth (levels : List (PyFloat × PyFloat)) (depth : Nat) (amount : ℚ) :
    (walkLevels levels depth amount).used ≤ depth :=
  calc (walkLevels levels depth amount).used
      = ((levels.take depth).foldl walkStep ⟨amount, 0, 0, 0⟩).used := rfl
    _ ≤ (⟨amount, 0, 0, 0⟩ : WalkAcc).used + (levels.take depth).length :=
        walk_foldl_used _ _
    _ ≤ depth := by simp only [List.length_take]; omega

theorem walk_filled_nonneg (levels : List (PyFloat × PyFloat)) (depth : Nat) (amount : ℚ) :
    0 ≤ (walkLevels levels depth amount).filled :=
  walk_foldl_filled_mono _ _

theorem walkLevels_eq_init_of_filled_nonpos (levels : List (PyFloat × PyFloat)) (depth : Nat)
    (amount : ℚ) (h : (walkLevels levels depth amount).filled ≤ 0) :
    walkLevels levels depth amount = ⟨amount, 0, 0, 0⟩ :=
  walk_foldl_eq_of_filled_eq _ _ (le_antisymm h (walk_filled_nonneg levels depth amount))

theorem acceptance_fst (r s m : ℚ) : (acceptance r s m).1 = true ↔ (r ≤ 0 ∧ s ≤ m) := by
  unfold acceptance
  split_ifs with h1 h2
  · simp [not_le.mpr h1]
  · simp [not_le.mpr h2]
  · simp [not_lt.mp h1, not_lt.mp h2]

/-! ## C6 — slippage estimation

The hypotheses say the book is well-formed: positive best bid/ask, not
crossed, ask levels priced at or above the best ask and bid levels at or
below the best bid (every real order book is sorted this way; levels whose
price coerces to ≤ 0 are skipped by the walk and are allowed anywhere). -/

/-- C6: for a well-formed order book and positive notional,
`estimate_slippage` walks at most `orderbook_depth` levels; when anything was
fillable, `effective_price` is total cost over total base filled and
`slippage_pct` equals the absolute relative distance of the effective price
from the bid/ask mid; and `is_acceptable` is `false` exactly when the
notional is not fully filled within the walked levels or the slippage
exceeds the configured maximum. -/
theorem estimate_slippage_spec (cfg : SlippageEstimatorConfig) (ob : Orderbook)
    (side : PyStr) (amount : ℚ) (symbol : PyStr)
    (hamt : 0 < amount) (hbb : 0 < bestBid ob) (hba : 0 < bestAsk ob)
    (hcross : bestBid ob ≤ bestAsk ob)
    (hasks : ∀ lv ∈ ob.asks, safeFloat lv.1 0 ≤ 0 ∨ bestAsk ob ≤ safeFloat lv.1 0)
    (hbids : ∀ lv ∈ ob.bids, safeFloat lv.1 0 ≤ 0 ∨ safeFloat lv.1 0 ≤ bestBid ob) :
    (estimate_slippage cfg ob side amount symbol).depth_levels_used ≤ cfg.orderbook_depth ∧
    (0 < (walkLevels (chosenLevels ob side) cfg.orderbook_depth amount).filled →
      (estimate_slippage cfg ob side amount symbol).effective_price =
        (walkLevels (chosenLevels ob side) cfg.orderbook_depth amount).cost /
          (walkLevels (chosenLevels ob side) cfg.orderbook_depth amount).filled ∧
      (estimate_slippage cfg ob side amount symbol).slippage_pct =
        pyAbs ((estimate_slippage cfg ob side amount symbol).effective_price -
            (bestBid ob + bestAsk ob) / 2) /
          ((bestBid ob + bestAsk ob) / 2)) ∧
    ((estimate_slippage cfg ob side amount symbol).is_acceptable = true ↔
      ((walkLevels (chosenLevels ob side) cfg.orderbook_depth amount).remaining = 0 ∧
        (estimate_slippage cfg ob side amount symbol).slippage_pct ≤
          cfg.max_acceptable_slippage_pct)) := by
  have hmidpos : 0 < (bestBid ob + bestAsk ob) / 2 := by linarith
  have hnotinv : ¬ (bestBid ob ≤ 0 ∨ bestAsk ob ≤ 0) := by push_neg; exact ⟨hbb, hba⟩
  obtain ⟨l0, ls, hlev⟩ : ∃ l0 ls, chosenLevels ob side = l0 :: ls := by
    unfold chosenLevels
    split_ifs
    · cases ha : ob.asks with
      | nil => rw [bestAsk, ha] at hba; exact absurd hba (lt_irrefl 0)
      | cons x xs => exact ⟨x, xs, rfl⟩
    · cases hb : ob.bids with
      | nil => rw [bestBid, hb] at hbb; exact absurd hbb (lt_irrefl 0)
      | cons x xs => exact ⟨x, xs, rfl⟩
  have hrem0 : 0 ≤ (walkLevels (chosenLevels ob side) cfg.orderbook_depth amount).remaining :=
    walk_foldl_remaining_nonneg _ _ (le_of_lt hamt)
  -- the signed slippage of the walk, when something filled, is non-negative
  have hsign : 0 < (walkLevels (chosenLevels ob side) cfg.orderbook_depth amount).filled →
      (if sideIsBuy side then
        (bestBid ob + bestAsk ob) / 2 ≤
          (walkLevels (chosenLevels ob side) cfg.orderbook_depth amount).cost /
            (walkLevels (chosenLevels ob side) cfg.orderbook_depth amount).filled
      else
        (walkLevels (chosenLevels ob side) cfg.orderbook_depth amount).cost /
            (walkLevels (chosenLevels ob side) cfg.orderbook_depth amount).filled ≤
          (bestBid ob + bestAsk ob) / 2) := by
    intro hf
    split_ifs with hsb
    · have hch : chosenLevels ob side = ob.asks := by unfold chosenLevels; rw [if_pos hsb]
      have hcost : bestAsk ob *
          (walkLevels (chosenLevels ob side) cfg.orderbook_depth amount).filled ≤
          (walkLevels (chosenLevels ob side) cfg.orderbook_depth amount).cost := by
        refine walk_foldl_cost_ge (bestAsk ob) hba _ ?_ _ (by simp)
        intro lv hlv
        exact hasks lv (by rw [hch] at hlv; exact List.mem_of_mem_take hlv)
      have : bestAsk ob ≤
          (walkLevels (chosenLevels ob side) cfg.orderbook_depth amount).cost /
            (walkLevels (chosenLevels ob side) cfg.orderbook_depth amount).filled :=
        (le_div_iff hf).mpr (by linarith [hcost])
      linarith
    · have hch : chosenLevels ob side = ob.bids := by unfold chosenLevels; rw [if_neg hsb]
      have hcost : (walkLevels (chosenLevels ob side) cfg.orderbook_depth amount).cost ≤
          bestBid ob *
            (walkLevels (chosenLevels ob side) cfg.orderbook_depth amount).filled := by
        refine walk_foldl_cost_le (bestBid ob) _ ?_ _ (by simp)
        intro lv hlv
        exact hbids lv (by rw [hch] at hlv; exact List.mem_of_mem_take hlv)
      have : (walkLevels (chosenLevels ob side) cfg.orderbook_depth amount).cost /
            (walkLevels (chosenLevels ob side) cfg.orderbook_depth amount).filled ≤
          bestBid ob :=
        (div_le_iff hf).mpr (by linarith [hcost])
      linarith
  rw [hlev] at hrem0 hsign ⊢
  by_cases hf : (walkLevels (l0 :: ls) cfg.orderbook_depth amount).filled ≤ 0
  · -- nothing fillable: the walk is the identity and the order is rejected
    have hinit := walkLevels_eq_init_of_filled_nonpos (l0 :: ls) cfg.orderbook_depth amount hf
    simp only [estimate_slippage, if_neg hnotinv, hlev, if_pos hf]
    refine ⟨walk_used_le_depth _ _ _, fun hpos => absurd hpos (by rw [hinit]; simp), ?_⟩
    rw [hinit]
    dsimp only
    constructor
    · intro h; exact absurd h (by decide)
    · rintro ⟨h0, -⟩
      exact absurd h0 (ne_of_gt hamt)
  · push_neg at hf
    have heff := hsign hf
    simp only [estimate_slippage, if_neg hnotinv, hlev, if_neg (not_le.mpr hf)]
    refine ⟨walk_used_le_depth _ _ _, fun _ => ⟨by first | rfl | trivial, ?_⟩, ?_⟩
    · -- slippage = |effective - mid| / mid under the sign facts
      by_cases hsb : sideIsBuy side
      · rw [if_pos hsb] at heff
        have hlab : (if sideIsBuy side then pys "buy" else pys "sell") = pys "buy" :=
          if_pos hsb
        have habs : pyAbs ((walkLevels (l0 :: ls) cfg.orderbook_depth amount).cost /
              (walkLevels (l0 :: ls) cfg.orderbook_depth amount).filled -
            (bestBid ob + bestAsk ob) / 2) =
            (walkLevels (l0 :: ls) cfg.orderbook_depth amount).cost /
              (walkLevels (l0 :: ls) cfg.orderbook_depth amount).filled -
            (bestBid ob + bestAsk ob) / 2 := by
          unfold pyAbs
          rw [if_neg (not_lt.mpr (by linarith))]
        rw [if_pos hlab, if_pos (show (bestBid ob + bestAsk ob) / 2 > 0 from hmidpos), habs]
      · rw [if_neg hsb] at heff
        have hlab : ¬ ((if sideIsBuy side then pys "buy" else pys "sell") = pys "buy") := by
          rw [if_neg hsb]; decide
        have habs : pyAbs ((walkLevels (l0 :: ls) cfg.orderbook_depth amount).cost /
              (walkLevels (l0 :: ls) cfg.orderbook_depth amount).filled -
            (bestBid ob + bestAsk ob) / 2) =
            ((bestBid ob + bestAsk ob) / 2 -
              (walkLevels (l0 :: ls) cfg.orderbook_depth amount).cost /
                (walkLevels (l0 :: ls) cfg.orderbook_depth amount).filled) := by
          unfold pyAbs
          by_cases hz : (walkLevels (l0 :: ls) cfg.orderbook_depth amount).cost /
              (walkLevels (l0 :: ls) cfg.orderbook_depth amount).filled -
              (bestBid ob + bestAsk ob) / 2 < 0
          · rw [if_pos hz]; ring
          · rw [if_neg hz]
            have heq : (walkLevels (l0 :: ls) cfg.orderbook_depth amount).cost /
                (walkLevels (l0 :: ls) cfg.orderbook_depth amount).filled =
                (bestBid ob + bestAsk ob) / 2 := by
              push_neg at hz; linarith
            rw [heq]
        rw [if_neg hlab, if_pos (show (bestBid ob + bestAsk ob) / 2 > 0 from hmidpos), habs]
    · -- acceptance characterization
      rw [acceptance_fst]
      constructor
      · rintro ⟨h1, h2⟩
        exact ⟨le_antisymm h1 hrem0, h2⟩
      · rintro ⟨h1, h2⟩
        exact ⟨le_of_eq h1, h2⟩

/-- C6 witness: buying 50 USDT against `obC6` fills half a unit at 100 from
the first ask level; the effective price is 100, the slippage against the
99.5 mid is `1/199 ≈ 0.5 %`, below the 0.6 % default cap, so the entry is
acceptable. -/
theorem estimate_slippage_spec_witness :
    (estimate_slippage {} obC6 (pys "buy") 50 (pys "BTCUSDT")).effective_price = 100 ∧
    (estimate_slippage {} obC6 (pys "buy") 50 (pys "BTCUSDT")).slippage_pct = 1 / 199 ∧
    (estimate_slippage {} obC6 (pys "buy") 50 (pys "BTCUSDT")).is_acceptable = true := by
  have h := estimate_slippage_spec {} obC6 (pys "buy") 50 (pys "BTCUSDT")
    (by norm_num) (by decide) (by decide) (by decide) (by decide) (by decide)
  have hstep1 : walkStep ⟨50, 0, 0, 0⟩ ((some 100 : PyFloat), (some 1 : PyFloat)) =
      ⟨0, 1/2, 50, 1⟩ := by
    simp only [walkStep, safeFloat]
    norm_num
  have hstep2 : walkStep ⟨0, 1/2, 50, 1⟩ ((some 101 : PyFloat), (some 1 : PyFloat)) =
      ⟨0, 1/2, 50, 1⟩ := by
    simp only [walkStep, safeFloat]
    norm_num
  have hwalk : walkLevels (chosenLevels obC6 (pys "buy"))
      ({} : SlippageEstimatorConfig).orderbook_depth 50 = ⟨0, 1/2, 50, 1⟩ := by
    have hch : (chosenLevels obC6 (pys "buy")).take
        ({} : SlippageEstimatorConfig).orderbook_depth =
        [((some 100 : PyFloat), (some 1 : PyFloat)), ((some 101 : PyFloat), (some 1 : PyFloat))] := by
      decide
    unfold walkLevels
    rw [hch]
    simp only [List.foldl]
    rw [hstep1, hstep2]
  have hf : 0 < (walkLevels (chosenLevels obC6 (pys "buy"))
      ({} : SlippageEstimatorConfig).orderbook_depth 50).filled := by
    rw [hwalk]; norm_num
  obtain ⟨heff, hslip⟩ := h.2.1 hf
  have hbb : bestBid obC6 = 99 := by decide
  have hba : bestAsk obC6 = 100 := by decide
  have heff' : (estimate_slippage {} obC6 (pys "buy") 50 (pys "BTCUSDT")).effective_price =
      100 := by
    rw [heff, hwalk]; norm_num
  have hslip' : (estimate_slippage {} obC6 (pys "buy") 50 (pys "BTCUSDT")).slippage_pct =
      1 / 199 := by
    rw [hslip, heff', hbb, hba]
    norm_num [pyAbs]
  refine ⟨heff', hslip', h.2.2.mpr ⟨by rw [hwalk], by rw [hslip']; norm_num⟩⟩

/-! ## C7 — `get_price` staleness guard and fallback -/

/-- C7: `get_price` returns `0.0` when the ticker cache age is infinite (no
ticker ever recorded) or exceeds the staleness limit (15 s in a position,
60 s idle); when fresh it returns the last price if positive, otherwise the
mid of the stored `(bid, ask)` when both are positive, otherwise `0.0`. -/
theorem get_price_staleness_and_fallback (o : Oracle) (sym : PyStr) (inPos : Bool)
    (nowW nowM : ℚ) :
    (o.get_cache_age (symkeyCore sym) [] nowW nowM = none →
      o.get_price sym inPos nowW nowM = 0) ∧
    (∀ a : ℚ, o.get_cache_age (symkeyCore sym) [] nowW nowM = some a →
      a > (if inPos then PRICE_STALE_SEC_IN_POS else PRICE_STALE_SEC_IDLE) →
      o.get_price sym inPos nowW nowM = 0) ∧
    (∀ a : ℚ, o.get_cache_age (symkeyCore sym) [] nowW nowM = some a →
      a ≤ (if inPos then PRICE_STALE_SEC_IN_POS else PRICE_STALE_SEC_IDLE) →
      o.get_price sym inPos nowW nowM =
        (if safeFloat (o.price (symkeyCore sym)) 0 > 0 then
          safeFloat (o.price (symkeyCore sym)) 0
        else
          match o.bidask (symkeyCore sym) with
          | some (b, ask) =>
            if pyPos b ∧ pyPos ask then (safeFloat b 0 + safeFloat ask 0) / 2 else 0
          | none => 0)) := by
  refine ⟨fun h => ?_, fun a h hgt => ?_, fun a h hle => ?_⟩
  · simp [Oracle.get_price, h]
  · simp [Oracle.get_price, h, hgt]
  · simp [Oracle.get_price, h, not_lt.mpr hle]

/-- C7 witness: on `oracleC7` at monotonic time 130 the idle ticker age is
30 s ≤ 60 s, the last price is non-positive, and `get_price` returns the
bid/ask mid `11`. -/
theorem get_price_staleness_and_fallback_witness :
    oracleC7.get_cache_age (symkeyCore (pys "ETHUSDT")) [] 0 130 = some 30 ∧
    oracleC7.get_price (pys "ETHUSDT") false 0 130 = 11 := by
  have hk : symkeyCore (pys "ETHUSDT") = pys "ETHUSDT" := by decide
  have hage : oracleC7.get_cache_age (symkeyCore (pys "ETHUSDT")) [] 0 130 = some 30 := by
    rw [hk]
    simp only [Oracle.get_cache_age, oracleC7, tfKey, pyMax, hk]
    norm_num
  refine ⟨hage, ?_⟩
  have h := (get_price_staleness_and_fallback oracleC7 (pys "ETHUSDT") false 0 130).2.2 30
    hage (by norm_num [PRICE_STALE_SEC_IDLE])
  rw [h]
  simp only [oracleC7, hk, safeFloat, pyPos]
  norm_num

/-! ## C4 — counter and equity invariants after `validate` -/

theorem pyMax_zero_nonneg (x : ℚ) : 0 ≤ pyMax 0 x := by
  unfold pyMax; split_ifs with h
  · exact le_refl 0
  · exact le_of_not_le (by simpa using h)

theorem pyMaxI_zero_nonneg (x : ℤ) : 0 ≤ pyMaxI 0 x := by
  unfold pyMaxI; split_ifs with h <;> omega

/-- C4: after `PsycheState.validate`, `total_wins` and `total_trades` are
non-negative with `total_wins ≤ total_trades`, `current_equity` is
non-negative, and whenever `current_equity > 0` it is dominated by
`peak_equity`. -/
theorem validate_counters_and_peak (s : PsycheState) (now : ℚ) :
    (∃ w t : ℤ, (s.validate now).total_wins = some w ∧
      (s.validate now).total_trades = some t ∧ 0 ≤ w ∧ w ≤ t) ∧
    (∀ ce pe : ℚ, (s.validate now).current_equity = some ce →
      (s.validate now).peak_equity = some pe → 0 ≤ ce ∧ (0 < ce → ce ≤ pe)) := by
  constructor
  · simp only [PsycheState.validate]
    refine ⟨_, _, rfl, rfl, ?_, ?_⟩
    · split_ifs with h
      · exact pyMaxI_zero_nonneg _
      · exact pyMaxI_zero_nonneg _
    · split_ifs with h
      · exact le_refl _
      · exact le_of_not_lt h
  · intro ce pe hce hpe
    simp only [PsycheState.validate, Option.some.injEq] at hce hpe
    subst hce
    refine ⟨pyMax_zero_nonneg _, fun hpos => ?_⟩
    rw [← hpe]
    split_ifs with h
    · exact le_refl _
    · rcases not_and_or.mp h with h1 | h2
      · exact absurd hpos (by simpa using h1)
      · exact le_of_not_lt (by simpa using h2)

/-- C4 witness: a state with `total_wins = 7 > total_trades = 5`,
`current_equity = 10` and `peak_equity = 4` validates to wins `5 ≤ 5` and
peak lifted to `10 ≥ 10`. -/
theorem validate_counters_and_peak_witness :
    (({ total_trades := some 5, total_wins := some 7, current_equity := some 10,
        peak_equity := some 4 } : PsycheState).validate 0).total_wins = some 5 ∧
    (({ total_trades := some 5, total_wins := some 7, current_equity := some 10,
        peak_equity := some 4 } : PsycheState).validate 0).peak_equity = some 10 ∧
    (0 ≤ (10 : ℚ) ∧ (0 < (10 : ℚ) → (10 : ℚ) ≤ 10)) := by
  refine ⟨by decide, by decide, ?_⟩
  exact (validate_counters_and_peak
    { total_trades := some 5, total_wins := some 7, current_equity := some 10,
      peak_equity := some 4 } 0).2 10 10 (by decide) (by decide)

/-! ## Dict-operation lemmas -/

theorem dget_dset_self {α : Type} (m : PyDict α) (k : PyStr) (v : α) :
    dget (dset m k v) k = some v := by
  induction m with
  | nil => simp [dset, dget]
  | cons kv rest ih =>
    by_cases h : kv.1 = k
    · simp [dset, dget, h]
    · simpa [dset, dget, h] using ih

theorem dget_dset_ne {α : Type} (m : PyDict α) (k : PyStr) (v : α) (x : PyStr) (h : x ≠ k) :
    dget (dset m k v) x = dget m x := by
  induction m with
  | nil =>
    simp only [dset, dget]
    rw [if_neg (fun he : k = x => h he.symm)]
  | cons kv rest ih =>
    simp only [dset]
    by_cases hk : kv.1 = k
    · rw [if_pos hk]
      have hkx : kv.1 ≠ x := by rw [hk]; exact fun he => h he.symm
      simp only [dget]
      rw [if_neg (fun he : k = x => h he.symm), if_neg hkx]
    · rw [if_neg hk]
      simp only [dget]
      by_cases hx : kv.1 = x
      · rw [if_pos hx, if_pos hx]
      · rw [if_neg hx, if_neg hx]
        exact ih

theorem dget_ddel {α : Type} (m : PyDict α) (k x : PyStr) (v : α)
    (h : dget (ddel m k) x = some v) : dget m x = some v ∧ x ≠ k := by
  induction m with
  | nil => simp [ddel, dget] at h
  | cons kv rest ih =>
    rw [ddel] at h
    by_cases hk : kv.1 = k
    · rw [if_pos hk] at h
      obtain ⟨hd, hne⟩ := ih h
      refine ⟨?_, hne⟩
      have hkx : kv.1 ≠ x := by rw [hk]; exact fun he => hne he.symm
      rw [dget, if_neg hkx]
      exact hd
    · rw [if_neg hk] at h
      rw [dget] at h ⊢
      by_cases hx : kv.1 = x
      · rw [if_pos hx] at h ⊢
        exact ⟨h, fun he => hk (by rw [hx, he])⟩
      · rw [if_neg hx] at h ⊢
        exact ih h

theorem dget_some_mem_pair {α : Type} (m : PyDict α) (x : PyStr) (v : α)
    (h : dget m x = some v) : (x, v) ∈ m := by
  induction m with
  | nil => simp [dget] at h
  | cons kv rest ih =>
    rw [dget] at h
    by_cases hx : kv.1 = x
    · rw [if_pos hx] at h
      have hv : kv.2 = v := Option.some.inj h
      have hkv : kv = (x, v) := by
        rw [← hx, ← hv]
      rw [← hkv]
      exact List.mem_cons_self kv rest
    · rw [if_neg hx] at h
      exact List.mem_cons_of_mem _ (ih h)

/-! ## Hygiene-loop invariant

The three per-map hygiene loops of `PsycheState.validate` iterate over a
snapshot of the dict while mutating it.  The lemma below captures their
common shape: every value of the final dict either satisfies the target
predicate or was a still-pending snapshot value — and a pending snapshot
value whose processing cannot establish the predicate (a non-dict
`symbol_performance` value left behind under a non-canonical key) satisfies
it vacuously. -/

theorem hygiene_foldl_good {H : Type} (Good : H → Prop)
    (step : PyDict H → PyStr → H → PyDict H)
    (hstep : ∀ d sym pv x v, dget (step d sym pv) x = some v →
      Good v ∨ (dget d x = some v ∧ (x ≠ sym ∨ Good pv))) :
    ∀ (snap : List (PyStr × H)) (d : PyDict H),
      (∀ x v, dget d x = some v → Good v ∨ (x, v) ∈ snap) →
      ∀ x v, dget (snap.foldl (fun d kv => step d kv.1 kv.2) d) x = some v → Good v := by
  intro snap
  induction snap with
  | nil =>
    intro d hI x v hget
    rcases hI x v hget with hg | hmem
    · exact hg
    · simp at hmem
  | cons kv rest ih =>
    intro d hI x v hget
    rw [List.foldl_cons] at hget
    refine ih (step d kv.1 kv.2) ?_ x v hget
    intro y w hy
    rcases hstep d kv.1 kv.2 y w hy with hg | ⟨hd, hor⟩
    · exact Or.inl hg
    · rcases hI y w hd with hg | hmem
      · exact Or.inl hg
      · rcases List.mem_cons.mp hmem with heq | hrest
        · rcases hor with hne | hgpv
          · exact absurd (congrArg Prod.fst heq) hne
          · left
            have hw : w = kv.2 := congrArg Prod.snd heq
            rw [hw]
            exact hgpv
        · exact Or.inr hrest

theorem perfHygiene_capped (p : PerfDict) : PerfCapped (.dict (perfHygiene p)) := by
  intro pd hpd
  cases hpd
  refine ⟨_, rfl, ?_⟩
  simp only [perfHygiene]
  split_ifs with h
  · exact pyLastN_length_le _ _
  · exact not_lt.mp h

theorem perfHygieneStep_spec (d : PyDict PerfVal) (sym : PyStr) (pv : PerfVal)
    (x : PyStr) (v : PerfVal) (h : dget (perfHygieneStep d sym pv) x = some v) :
    PerfCapped v ∨ (dget d x = some v ∧ (x ≠ sym ∨ PerfCapped pv)) := by
  unfold perfHygieneStep at h
  by_cases hk : symkeyCore sym = []
  · rw [if_pos hk] at h
    obtain ⟨hd, hne⟩ := dget_ddel d sym x v h
    exact Or.inr ⟨hd, Or.inl hne⟩
  · rw [if_neg hk] at h
    cases pv with
    | dict p =>
      dsimp only at h
      by_cases hks : symkeyCore sym = sym
      · rw [if_pos hks] at h
        by_cases hx : x = symkeyCore sym
        · subst hx
          rw [dget_dset_self] at h
          cases h
          exact Or.inl (perfHygiene_capped p)
        · rw [dget_dset_ne _ _ _ _ hx] at h
          exact Or.inr ⟨h, Or.inl (hks ▸ hx)⟩
      · rw [if_neg hks] at h
        by_cases hx : x = symkeyCore sym
        · subst hx
          rw [dget_dset_self] at h
          cases h
          exact Or.inl (perfHygiene_capped p)
        · rw [dget_dset_ne _ _ _ _ hx] at h
          obtain ⟨hd, hne⟩ := dget_ddel d sym x v h
          exact Or.inr ⟨hd, Or.inl hne⟩
    | noneV =>
      dsimp only at h
      by_cases hx : x = symkeyCore sym
      · subst hx
        rw [dget_dset_self] at h
        cases h
        exact Or.inl (perfHygiene_capped perfDefault)
      · rw [dget_dset_ne _ _ _ _ hx] at h
        exact Or.inr ⟨h, Or.inr (fun pd hpd => by cases hpd)⟩
    | notDict =>
      dsimp only at h
      by_cases hx : x = symkeyCore sym
      · subst hx
        rw [dget_dset_self] at h
        cases h
        exact Or.inl (perfHygiene_capped perfDefault)
      · rw [dget_dset_ne _ _ _ _ hx] at h
        exact Or.inr ⟨h, Or.inr (fun pd hpd => by cases hpd)⟩

set_option maxRecDepth 8000 in
theorem historyHygieneStep_spec (d : PyDict (List PyFloat)) (sym : PyStr)
    (hist : List PyFloat) (x : PyStr) (v : List PyFloat)
    (h : dget (historyHygieneStep d sym hist) x = some v) :
    HistCapped v ∨ (dget d x = some v ∧ (x ≠ sym ∨ HistCapped hist)) := by
  unfold historyHygieneStep at h
  by_cases hk : symkeyCore sym = []
  · rw [if_pos hk] at h
    obtain ⟨hd, hne⟩ := dget_ddel d sym x v h
    exact Or.inr ⟨hd, Or.inl hne⟩
  · rw [if_neg hk] at h
    dsimp only at h
    by_cases hx : x = symkeyCore sym
    · subst hx
      rw [dget_dset_self] at h
      cases h
      refine Or.inl ⟨?_, hist, rfl⟩
      rw [List.length_map]
      exact pyLastN_length_le _ _
    · rw [dget_dset_ne _ _ _ _ hx] at h
      by_cases hks : symkeyCore sym ≠ sym
      · rw [if_pos hks] at h
        obtain ⟨hd, hne⟩ := dget_ddel d sym x v h
        exact Or.inr ⟨hd, Or.inl hne⟩
      · rw [if_neg hks] at h
        push_neg at hks
        exact Or.inr ⟨h, Or.inl (hks ▸ hx)⟩

/-! ## C5 — bounded collections after `validate` -/

/-- C5: after `PsycheState.validate` all bounded collections respect their
caps — `known_exit_order_ids ≤ 50000` (kept as a suffix of the normalized id
sequence, i.e. the oldest are dropped), `entry_watches ≤ 500` (dropped
watches are no newer than any kept watch), every confidence history holds at
most the 200 newest sanitized entries, and every `symbol_performance` dict
carries at most 20 trailing order ids. -/
theorem validate_collection_caps (s : PsycheState) (now : ℚ) :
    (∀ xs, (s.validate now).known_exit_order_ids = KeiVal.setK xs →
      xs.length ≤ KNOWN_EXIT_IDS_CAP ∧ xs <:+ keiNormalize s.known_exit_order_ids) ∧
    (s.validate now).entry_watches.length ≤ ENTRY_WATCHES_CAP ∧
    (∀ p ∈ mergeEntryWatchesRaw s.entry_watches,
      p ∉ mergeEntryWatchesCanon s.entry_watches →
      ∀ q ∈ mergeEntryWatchesCanon s.entry_watches, watchCt p.2 ≤ watchCt q.2) ∧
    (∀ k hist, dget (s.validate now).entry_confidence_history k = some hist →
      HistCapped hist) ∧
    (∀ k pv, dget (s.validate now).symbol_performance k = some pv → PerfCapped pv) := by
  have hkei : (s.validate now).known_exit_order_ids =
      KeiVal.setK
        (if (keiNormalize s.known_exit_order_ids).length > KNOWN_EXIT_IDS_CAP then
          pyLastN (keiNormalize s.known_exit_order_ids) KNOWN_EXIT_IDS_CAP
        else keiNormalize s.known_exit_order_ids) := rfl
  have hwatch : (s.validate now).entry_watches =
      (mergeEntryWatchesCanon s.entry_watches).map (fun kv => (kv.1, WatchVal.dict kv.2)) := rfl
  have hech : (s.validate now).entry_confidence_history =
      (canonMapKeys s.entry_confidence_history (some (fun _ b => b))).foldl
        (fun d kv => historyHygieneStep d kv.1 kv.2)
        (canonMapKeys s.entry_confidence_history (some (fun _ b => b))) := rfl
  have hperf : (s.validate now).symbol_performance =
      (canonMapKeys s.symbol_performance (some mergeDictShallowPerf)).foldl
        (fun d kv => perfHygieneStep d kv.1 kv.2)
        (canonMapKeys s.symbol_performance (some mergeDictShallowPerf)) := rfl
  refine ⟨?_, ?_, ?_, ?_, ?_⟩
  · intro xs hxs
    rw [hkei] at hxs
    have hx : (if (keiNormalize s.known_exit_order_ids).length > KNOWN_EXIT_IDS_CAP then
        pyLastN (keiNormalize s.known_exit_order_ids) KNOWN_EXIT_IDS_CAP
      else keiNormalize s.known_exit_order_ids) = xs := by
      injection hxs
    rw [← hx]
    split_ifs with hlen
    · refine ⟨pyLastN_length_le _ _, ?_⟩
      unfold pyLastN
      exact List.drop_suffix _ _
    · exact ⟨not_lt.mp hlen, List.suffix_refl _⟩
  · rw [hwatch, List.length_map]
    simp only [mergeEntryWatchesCanon]
    split_ifs with hlen
    · exact pyLastN_length_le _ _
    · exact not_lt.mp hlen
  · intro p hp hnp q hq
    simp only [mergeEntryWatchesCanon] at hnp hq
    by_cases hlen : (mergeEntryWatchesRaw s.entry_watches).length > ENTRY_WATCHES_CAP
    · rw [if_pos hlen] at hnp hq
      haveI : IsTotal (PyStr × Watch) (fun a b => watchCt a.2 ≤ watchCt b.2) :=
        ⟨fun a b => le_total _ _⟩
      haveI : IsTrans (PyStr × Watch) (fun a b => watchCt a.2 ≤ watchCt b.2) :=
        ⟨fun _ _ _ hab hbc => le_trans hab hbc⟩
      have hsort : List.Sorted (fun a b => watchCt a.2 ≤ watchCt b.2)
          (List.insertionSort (fun a b => watchCt a.2 ≤ watchCt b.2)
            (mergeEntryWatchesRaw s.entry_watches)) :=
        List.sorted_insertionSort _ _
      have hpss : p ∈ List.insertionSort (fun a b => watchCt a.2 ≤ watchCt b.2)
          (mergeEntryWatchesRaw s.entry_watches) :=
        (List.perm_insertionSort _ _).mem_iff.mpr hp
      have hsplit := List.take_append_drop
        ((List.insertionSort (fun a b => watchCt a.2 ≤ watchCt b.2)
            (mergeEntryWatchesRaw s.entry_watches)).length - ENTRY_WATCHES_CAP)
        (List.insertionSort (fun a b => watchCt a.2 ≤ watchCt b.2)
          (mergeEntryWatchesRaw s.entry_watches))
      rw [← hsplit] at hsort hpss
      have hptake : p ∈ (List.insertionSort (fun a b => watchCt a.2 ≤ watchCt b.2)
          (mergeEntryWatchesRaw s.entry_watches)).take
            ((List.insertionSort (fun a b => watchCt a.2 ≤ watchCt b.2)
              (mergeEntryWatchesRaw s.entry_watches)).length - ENTRY_WATCHES_CAP) := by
        rcases List.mem_append.mp hpss with hp1 | hp2
        · exact hp1
        · exact absurd hp2 hnp
      exact (List.pairwise_append.mp hsort).2.2 p hptake q hq
    · rw [if_neg hlen] at hnp
      exact absurd hp hnp
  · intro k hist hget
    rw [hech] at hget
    exact hygiene_foldl_good HistCapped historyHygieneStep historyHygieneStep_spec _ _
      (fun x v h => Or.inr (dget_some_mem_pair _ _ _ h)) k hist hget
  · intro k pv hget
    rw [hperf] at hget
    exact hygiene_foldl_good PerfCapped perfHygieneStep perfHygieneStep_spec _ _
      (fun x v h => Or.inr (dget_some_mem_pair _ _ _ h)) k pv hget

/-- C5 witness: on `sC5`, validation keeps the two exit ids (a suffix of the
normalized sequence) and the single sanitized confidence entry, which is
within its cap. -/
theorem validate_collection_caps_witness :
    ((sC5.validate 0).known_exit_order_ids = KeiVal.setK [pys "a", pys "b"]) ∧
    ([pys "a", pys "b"].length ≤ KNOWN_EXIT_IDS_CAP ∧
      [pys "a", pys "b"] <:+ keiNormalize sC5.known_exit_order_ids) ∧
    (dget ((sC5.validate 0).entry_confidence_history) (pys "ETHUSDT") =
      some [some 1]) ∧
    HistCapped [some 1] := by
  refine ⟨by decide, (validate_collection_caps sC5 0).1 [pys "a", pys "b"] (by decide),
    by decide, (validate_collection_caps sC5 0).2.2.2.1 (pys "ETHUSDT") [some 1]
      (by decide)⟩

/-! ## C10 — `Position.validate` side normalization -/

/-- C10: `Position.validate` lowercases and strips `side` (a missing/`None`
side counts as empty), keeps it when it is exactly `"long"` or `"short"`, and
coerces anything else to `"long"`; afterwards the side is always `"long"` or
`"short"`. -/
theorem position_validate_side (p : Position) (now : ℚ) :
    (p.validate now).side =
      some (let s := pyStrip (pyLower (p.side.getD []))
            if s = pys "long" ∨ s = pys "short" then s else pys "long") ∧
    ((p.validate now).side = some (pys "long") ∨ (p.validate now).side = some (pys "short")) := by
  refine ⟨rfl, ?_⟩
  by_cases h : pyStrip (pyLower (p.side.getD [])) = pys "long" ∨
      pyStrip (pyLower (p.side.getD [])) = pys "short"
  · rcases h with h | h <;> simp [Position.validate, h]
  · simp [Position.validate, h]

end EclipseScalper
